import Mathlib

/-!
Verification of the OpenGEX Blender exporter (`src/opengex_exporter.py`, with its
near-duplicate `src/export_v1.py`) against its natural-language specification.

The Python source is shallowly embedded: Python floats are modelled as exact
rationals (`ℚ`) except where a claim is specifically about Python float/hash
semantics, in which case a dedicated `PyFloat` model is used; Python's unbounded
ints are `ℤ`; Python lists are `List`; code that can raise returns `Except`
or `Option`.
-/

set_option maxRecDepth 8000

namespace OpenGex

/-- `EPSILON = 1.0e-6` from `opengex_exporter.py` line 61. -/
def EPSILON : ℚ := 1 / 1000000

/-- `ANIMATION_SAMPLED = 0` (line 57). -/
def ANIMATION_SAMPLED : ℕ := 0

/-- `ANIMATION_LINEAR = 1` (line 58). -/
def ANIMATION_LINEAR : ℕ := 1

/-- `ANIMATION_BEZIER = 2` (line 59). -/
def ANIMATION_BEZIER : ℕ := 2

/-!
## VertexDeduplicator: `ExportVertex`, `deindex_mesh`, `find_export_vertex`, `unify_vertices`

`ExportVertex` (lines 91-137).  Coordinates are modelled as exact rationals;
`position`/`normal`/`color` are 3-element lists and the texcoords 2-element
lists, mirroring the Python sequences that `__eq__` compares element-wise.
-/

structure ExportVertex where
  hash : ℤ
  vertexIndex : ℕ
  faceIndex : ℕ
  position : List ℚ
  normal : List ℚ
  color : List ℚ
  texcoord0 : List ℚ
  texcoord1 : List ℚ
deriving DecidableEq, Repr

/-- `ExportVertex.__eq__` (lines 108-121): the hash is compared first, then the
five coordinate sequences; `vertexIndex` and `faceIndex` do not participate. -/
def vertexEq (s v : ExportVertex) : Bool :=
  if s.hash ≠ v.hash then false
  else if s.position ≠ v.position then false
  else if s.normal ≠ v.normal then false
  else if s.color ≠ v.color then false
  else if s.texcoord0 ≠ v.texcoord0 then false
  else if s.texcoord1 ≠ v.texcoord1 then false
  else true

instance : Inhabited ExportVertex :=
  ⟨⟨0, 0, 0, [], [], [], [], []⟩⟩

/-- `OpenGexExporter.find_export_vertex` (lines 807-813): linear scan of one
bucket for a structurally equal vertex, returning its index or `-1`.
Bucket members are always in range in `unify_vertices`, so the out-of-range
default of `getD` is never hit. -/
def findExportVertex (bucket : List ℕ) (exportVertexArray : List ExportVertex)
    (vertex : ExportVertex) : ℤ :=
  match bucket with
  | [] => -1
  | index :: rest =>
      if vertexEq (exportVertexArray.getD index default) vertex then (index : ℤ)
      else findExportVertex rest exportVertexArray vertex

/-- The `while` loop of `unify_vertices` (lines 824-828): repeatedly clear the
lowest set bit (`bucketCount & (bucketCount - 1)`) until a power of two remains.
The fuel argument (instantiated with the starting value) bounds the strictly
decreasing iterate, so the recursion is structural. -/
def roundDownPow2 : ℕ → ℕ → ℕ
  | 0, bucketCount => bucketCount
  | fuel + 1, bucketCount =>
      let count := bucketCount &&& (bucketCount - 1)
      if count = 0 then bucketCount else roundDownPow2 fuel count

/-- Bucket count computation of `unify_vertices` (lines 820-830):
`len >> 3`, rounded down to the nearest power of two, but at least 1. -/
def bucketCountOf (n : ℕ) : ℕ :=
  let bucketCount := n >>> 3
  if bucketCount > 1 then roundDownPow2 bucketCount bucketCount else 1

/-- State of the `for` loop in `unify_vertices`: the bucket table, the unified
vertex array being built, and the index table being appended to. -/
structure UnifyState where
  hashTable : List (List ℕ)
  unifiedVertexArray : List ExportVertex
  indexTable : List ℕ
deriving Repr

/-- One iteration of the `for` loop of `unify_vertices` (lines 835-846),
processing original corner `i` holding vertex `ev`. -/
def unifyStep (exportVertexArray : List ExportVertex) (bucketCount : ℕ)
    (st : UnifyState) (i : ℕ) (ev : ExportVertex) : UnifyState :=
  let bucket := (Int.land ev.hash ((bucketCount : ℤ) - 1)).toNat
  let index := findExportVertex (st.hashTable.getD bucket []) exportVertexArray ev
  if index < 0 then
    { hashTable := st.hashTable.set bucket (st.hashTable.getD bucket [] ++ [i])
      unifiedVertexArray := st.unifiedVertexArray ++ [ev]
      indexTable := st.indexTable ++ [st.unifiedVertexArray.length] }
  else
    { st with indexTable := st.indexTable ++ [st.indexTable.getD index.toNat 0] }

/-- The `for i in range(len(exportVertexArray))` loop, processing the corners
`rest` that remain when `i = st.indexTable.length` corners are already done. -/
def unifyLoop (exportVertexArray : List ExportVertex) (bucketCount : ℕ)
    (st : UnifyState) : List ExportVertex → UnifyState
  | [] => st
  | ev :: rest =>
      unifyLoop exportVertexArray bucketCount
        (unifyStep exportVertexArray bucketCount st st.indexTable.length ev) rest

/-- `OpenGexExporter.unify_vertices` (lines 815-848).  The Python function
appends to a caller-supplied `indexTable` (empty at the call site) and returns
`unifiedVertexArray`; here both are returned. -/
def unifyVertices (exportVertexArray : List ExportVertex) :
    List ExportVertex × List ℕ :=
  let bucketCount := bucketCountOf exportVertexArray.length
  let st := unifyLoop exportVertexArray bucketCount
    { hashTable := List.replicate bucketCount [], unifiedVertexArray := [], indexTable := [] }
    exportVertexArray
  (st.unifiedVertexArray, st.indexTable)

/-!
## AnimationClassifier: `ClassifyAnimationCurve`, `AnimationKeysDifferent`,
`AnimationTangentsNonzero`, `AnimationPresent` (lines 898-960)
-/

/-- One keyframe of an f-curve: interpolation tag, key coordinate `co`,
and the two handle coordinates, each an `(x, y)` pair. -/
structure Keyframe where
  interpolation : String
  co : ℚ × ℚ
  handle_left : ℚ × ℚ
  handle_right : ℚ × ℚ
deriving DecidableEq, Repr

/-- An animation f-curve: target property path, component index, keyframes. -/
structure FCurve where
  data_path : String
  array_index : ℕ
  keyframe_points : List Keyframe
deriving DecidableEq, Repr

/-- The counting loop of `ClassifyAnimationCurve` (lines 903-917): any
interpolation other than LINEAR/BEZIER returns `ANIMATION_SAMPLED` at once. -/
def classifyLoop : List Keyframe → ℕ → ℕ → ℕ
  | [], linearCount, bezierCount =>
      if bezierCount = 0 then ANIMATION_LINEAR
      else if linearCount = 0 then ANIMATION_BEZIER
      else ANIMATION_SAMPLED
  | key :: rest, linearCount, bezierCount =>
      if key.interpolation = "LINEAR" then classifyLoop rest (linearCount + 1) bezierCount
      else if key.interpolation = "BEZIER" then classifyLoop rest linearCount (bezierCount + 1)
      else ANIMATION_SAMPLED

/-- `OpenGexExporter.ClassifyAnimationCurve` (lines 898-917). -/
def classifyAnimationCurve (fcurve : FCurve) : ℕ :=
  classifyLoop fcurve.keyframe_points 0 0

/-- `OpenGexExporter.AnimationKeysDifferent` (lines 919-930): compares the
value of each keyframe after the first against the FIRST keyframe's value. -/
def animationKeysDifferent (fcurve : FCurve) : Bool :=
  match fcurve.keyframe_points with
  | [] => false
  | first :: rest =>
      let key1 := first.co.2
      rest.any fun kf => |kf.co.2 - key1| > EPSILON

/-- `OpenGexExporter.AnimationTangentsNonzero` (lines 932-951): true when some
keyframe's left or right handle value deviates from its key value by more
than `EPSILON`.  (The source checks keyframe 0 and then the rest in a loop;
both are the same per-keyframe test.) -/
def animationTangentsNonzero (fcurve : FCurve) : Bool :=
  match fcurve.keyframe_points with
  | [] => false
  | first :: rest =>
      (first :: rest).any fun kf =>
        |kf.co.2 - kf.handle_left.2| > EPSILON || |kf.handle_right.2 - kf.co.2| > EPSILON

/-- `OpenGexExporter.AnimationPresent` (lines 953-960). -/
def animationPresent (fcurve : FCurve) (kind : ℕ) : Bool :=
  if kind ≠ ANIMATION_BEZIER then animationKeysDifferent fcurve
  else animationKeysDifferent fcurve || animationTangentsNonzero fcurve

/-!
## Matrices and the document writer event stream

`mathutils.Matrix` is modelled as `Matrix (Fin 4) (Fin 4) ℚ` with `m i j`
standing for the Python `m[i][j]` (row `i`, column `j`).  Output is modelled
at the granularity of the writer's primitive calls: one event per `write`,
`indent_write`, `write_int`, `write_float`, or whole-matrix write
(`write_matrix` / `write_matrix_flat`, whose sixteen `write_float`s and
separators are folded into a single `mat` event).
-/

/-- A 4×4 rational matrix standing for a `mathutils.Matrix`. -/
abbrev Matrix4 := Matrix (Fin 4) (Fin 4) ℚ

/-- `mathutils` matrix multiplication `A @ B`. -/
def matMul (a b : Matrix4) : Matrix4 :=
  (a : Matrix (Fin 4) (Fin 4) ℚ) * b

/-- `mathutils` `Matrix.determinant()`. -/
def matDet (m : Matrix4) : ℚ :=
  Matrix.det (m : Matrix (Fin 4) (Fin 4) ℚ)

/-- `mathutils` `Matrix.inverted()`, via the adjugate; the exporter only
inverts after guarding `|det| > EPSILON`, where this is the true inverse. -/
def matInverted (m : Matrix4) : Matrix4 :=
  (matDet m)⁻¹ • (Matrix.adjugate (m : Matrix (Fin 4) (Fin 4) ℚ))

/-- `OpenGexExporter.MatricesDifferent` (lines 962-969): true when some of the
16 elements differ by more than `EPSILON`. -/
def matricesDifferent (m1 m2 : Matrix4) : Bool :=
  (List.finRange 4).any fun i =>
    (List.finRange 4).any fun j => |m1 i j - m2 i j| > EPSILON

/-- One primitive write of the document writer. -/
inductive WEvent where
  | raw (s : String)
  | indent (s : String) (extra : ℤ) (newline : Bool)
  | int (n : ℤ)
  | flt (q : ℚ)
  | mat (m : Matrix4)

/-- Recognizes a scalar `write_float` event. -/
def WEvent.isFlt : WEvent → Bool
  | .flt _ => true
  | _ => false

/-- Recognizes a whole-matrix (`write_matrix` / `write_matrix_flat`) event. -/
def WEvent.isMat : WEvent → Bool
  | .mat _ => true
  | _ => false

/-- Recognizes the bare `b", "` separator written by `self.write`. -/
def WEvent.isCommaRaw : WEvent → Bool
  | .raw s => s = ", "
  | _ => false

/-- Recognizes the `indent_write(b"Animation\n", 0, True)` event that opens an
`Animation` block. -/
def WEvent.isAnimationHeader : WEvent → Bool
  | .indent s _ _ => s = "Animation\n"
  | _ => false

/-- Python `range(a, b)` over ints. -/
def intRange (a b : ℤ) : List ℤ :=
  (List.range (b - a).toNat).map fun (k : ℕ) => a + (k : ℤ)

/-!
## Sampled animation emitters (lines 1106-1274)

`scene.frame_set(i)` followed by reading `node.matrix_local` (resp.
`poseBone.matrix`) is modelled by applying a frame-indexed matrix function;
the final `frame_set(currentFrame, ...)` restore has no observable effect on
the output buffer.
-/

/-- `OpenGexExporter.ExportNodeSampledAnimation` (lines 1106-1175).
`matrixLocal i` is `node.matrix_local` as observed after `scene.frame_set(i)`;
`currentFrame` is `scene.frame_current` on entry, so `m1 = matrixLocal
currentFrame` is the node's rest matrix. -/
def exportNodeSampledAnimation (matrixLocal : ℤ → Matrix4)
    (currentFrame beginFrame endFrame : ℤ) (frameTime : ℚ) : List WEvent :=
  let m1 := matrixLocal currentFrame
  let animationFlag :=
    (intRange beginFrame endFrame).any fun i => matricesDifferent m1 (matrixLocal i)
  if animationFlag then
    [.indent "Animation\n" 0 true, .indent "\x7b\n" 0 false,
     .indent "Track (target = %transform)\n" 0 false, .indent "\x7b\n" 0 false,
     .indent "Time\n" 0 false, .indent "\x7b\n" 0 false,
     .indent "Key \x7bfloat \x7b" 0 false]
    ++ ((intRange beginFrame endFrame).map fun _ => WEvent.raw ", ")
    ++ [.flt ((endFrame : ℚ) * frameTime), .raw "\x7d\x7d\n",
        .indent "\x7d\n\n" (-1) false, .indent "Value\n" (-1) false,
        .indent "\x7b\n" (-1) false, .indent "Key\n" 0 false, .indent "\x7b\n" 0 false,
        .indent "float[16]\n" 0 false, .indent "\x7b\n" 0 false]
    ++ ((intRange beginFrame endFrame).flatMap fun i =>
          [WEvent.mat (matrixLocal i), WEvent.raw ",\n"])
    ++ [.mat (matrixLocal endFrame), .indent "\x7d\n" 0 true,
        .indent "\x7d\n" 0 false, .indent "\x7d\n" 0 false,
        .indent "\x7d\n" 0 false, .indent "\x7d\n" 0 false]
  else []

/-- The matrix written per frame by `ExportBoneSampledAnimation`
(lines 1226-1259): with a parent pose bone, `parent.matrix.inverted() @
poseBone.matrix` when the parent's determinant passes the epsilon guard,
else the bone's own pose matrix. -/
def boneFrameMatrix (parentMatrix : Option (ℤ → Matrix4))
    (boneMatrix : ℤ → Matrix4) (i : ℤ) : Matrix4 :=
  match parentMatrix with
  | some pm =>
      if |matDet (pm i)| > EPSILON then matMul (matInverted (pm i)) (boneMatrix i)
      else boneMatrix i
  | none => boneMatrix i

/-- `OpenGexExporter.ExportBoneSampledAnimation` (lines 1177-1274).
`boneMatrix i` is `poseBone.matrix` as observed after `scene.frame_set(i)`,
and `parentMatrix` is `poseBone.parent.matrix` likewise when the bone has a
parent. -/
def exportBoneSampledAnimation (boneMatrix : ℤ → Matrix4)
    (parentMatrix : Option (ℤ → Matrix4))
    (currentFrame beginFrame endFrame : ℤ) (frameTime : ℚ) : List WEvent :=
  let m1 := boneMatrix currentFrame
  let animationFlag :=
    (intRange beginFrame endFrame).any fun i => matricesDifferent m1 (boneMatrix i)
  if animationFlag then
    [.indent "Animation\n" 0 true, .indent "\x7b\n" 0 false,
     .indent "Track (target = %transform)\n" 0 false, .indent "\x7b\n" 0 false,
     .indent "Time\n" 0 false, .indent "\x7b\n" 0 false,
     .indent "Key \x7bfloat \x7b" 0 false]
    ++ ((intRange beginFrame endFrame).flatMap fun i =>
          [WEvent.flt (((i : ℚ) - (beginFrame : ℚ)) * frameTime), WEvent.raw ", "])
    ++ [.flt ((endFrame : ℚ) * frameTime), .raw "\x7d\x7d\n",
        .indent "\x7d\n\n" (-1) false, .indent "Value\n" (-1) false,
        .indent "\x7b\n" (-1) false, .indent "Key\n" 0 false, .indent "\x7b\n" 0 false,
        .indent "float[16]\n" 0 false, .indent "\x7b\n" 0 false]
    ++ ((intRange beginFrame endFrame).flatMap fun i =>
          [WEvent.mat (boneFrameMatrix parentMatrix boneMatrix i), WEvent.raw ",\n"])
    ++ [.mat (boneFrameMatrix parentMatrix boneMatrix endFrame),
        .indent "\x7d\n" 0 true,
        .indent "\x7d\n" 0 false, .indent "\x7d\n" 0 false,
        .indent "\x7d\n" 0 false, .indent "\x7d\n" 0 false]
  else []

/-!
## TransformEmitter: the decision logic of `ExportNodeTransform` (lines 1322-1465)
-/

/-- Blender's `animation_data.action`: the f-curves of one action. -/
structure ActionData where
  fcurves : List FCurve
deriving Repr

/-- Blender's `node.animation_data`, whose `action` may be `None`. -/
structure AnimData where
  action : Option ActionData
deriving Repr

/-- The slice of a Blender object consumed by `ExportNodeTransform`:
rotation mode string, optional animation data, and `matrix_local` as a
function of the current scene frame. -/
structure NodeTransformInput where
  rotation_mode : String
  animation_data : Option AnimData
  matrix_local : ℤ → Matrix4

/-- Per-group scan slots of `ExportNodeTransform`: `xxxAnimCurve[3]`,
`xxxAnimKind[3]`, `xxxAnimated[3]` for one of the six channel groups. -/
structure CurveSlots where
  curves : List (Option FCurve)
  kinds : List ℕ
  animated : List Bool
deriving Repr

/-- All slots start out `[None]*3` / `[0]*3` / `[False]*3` (lines 1323-1349). -/
def CurveSlots.init : CurveSlots :=
  { curves := [none, none, none], kinds := [0, 0, 0], animated := [false, false, false] }

/-- The `for i in range(3)` slot update (e.g. lines 1365-1370): record the
curve and kind for its component the first time that component is seen, and
mark the component animated when `AnimationPresent` holds. -/
def CurveSlots.update (s : CurveSlots) (fcurve : FCurve) (kind : ℕ) : CurveSlots :=
  let i := fcurve.array_index
  if i < 3 && (s.curves.getD i none).isNone then
    { curves := s.curves.set i (some fcurve)
      kinds := s.kinds.set i kind
      animated := s.animated.set i (animationPresent fcurve kind) }
  else s

/-- `posAnimated[0] | posAnimated[1] | posAnimated[2]` (lines 1423-1435). -/
def CurveSlots.anyAnimated (s : CurveSlots) : Bool :=
  s.animated.getD 0 false || s.animated.getD 1 false || s.animated.getD 2 false

/-- The scan state: one `CurveSlots` per channel group. -/
structure CurveScan where
  pos : CurveSlots
  rot : CurveSlots
  scl : CurveSlots
  deltaPos : CurveSlots
  deltaRot : CurveSlots
  deltaScl : CurveSlots
deriving Repr

/-- Initial scan state. -/
def CurveScan.init : CurveScan :=
  ⟨.init, .init, .init, .init, .init, .init⟩

/-- The f-curve scan loop of `ExportNodeTransform` (lines 1361-1421).  The
returned `Bool` is `True` exactly when the loop set `sampledAnimation = True`
and broke out: on a curve classified `ANIMATION_SAMPLED`, or on a
(non-sampled) curve driving `rotation_axis_angle`, `rotation_quaternion`, or
`delta_rotation_quaternion`.  A curve with any other unrecognized data path
is skipped. -/
def scanCurves : List FCurve → CurveScan → Bool × CurveScan
  | [], st => (false, st)
  | fcurve :: rest, st =>
      let kind := classifyAnimationCurve fcurve
      if kind ≠ ANIMATION_SAMPLED then
        if fcurve.data_path = "location" then
          scanCurves rest { st with pos := st.pos.update fcurve kind }
        else if fcurve.data_path = "delta_location" then
          scanCurves rest { st with deltaPos := st.deltaPos.update fcurve kind }
        else if fcurve.data_path = "rotation_euler" then
          scanCurves rest { st with rot := st.rot.update fcurve kind }
        else if fcurve.data_path = "delta_rotation_euler" then
          scanCurves rest { st with deltaRot := st.deltaRot.update fcurve kind }
        else if fcurve.data_path = "scale" then
          scanCurves rest { st with scl := st.scl.update fcurve kind }
        else if fcurve.data_path = "delta_scale" then
          scanCurves rest { st with deltaScl := st.deltaScl.update fcurve kind }
        else if fcurve.data_path = "rotation_axis_angle"
            || fcurve.data_path = "rotation_quaternion"
            || fcurve.data_path = "delta_rotation_quaternion" then
          (true, st)
        else
          scanCurves rest st
      else (true, st)

/-- Lines 1351-1421: the value of `sampledAnimation` after the scan, together
with the final slot state.  `sampleAnimationFlag` is the exporter's global
"Force Sampled Animation" option. -/
def nodeSampledDecision (sampleAnimationFlag : Bool) (node : NodeTransformInput) :
    Bool × CurveScan :=
  let mode := node.rotation_mode
  let sampledAnimation :=
    sampleAnimationFlag || mode = "QUATERNION" || mode = "AXIS_ANGLE"
  if !sampledAnimation then
    match node.animation_data with
    | some ad =>
        match ad.action with
        | some action => scanCurves action.fcurves CurveScan.init
        | none => (false, CurveScan.init)
    | none => (false, CurveScan.init)
  else (true, CurveScan.init)

/-- The condition of line 1437-1444: static/sampled single-matrix branch when
sampled, or when no channel of any group is animated. -/
def CurveScan.noneAnimated (st : CurveScan) : Bool :=
  !st.pos.anyAnimated && !st.rot.anyAnimated && !st.scl.anyAnimated
    && !st.deltaPos.anyAnimated && !st.deltaRot.anyAnimated && !st.deltaScl.anyAnimated

/-- `OpenGexExporter.ExportNodeTransform`, upper branch (lines 1322-1465):
`some events` when the function takes the single-matrix branch (line 1437),
emitting one `Transform` block with one 4×4 matrix and, in the sampled state,
the output of `ExportNodeSampledAnimation`; `none` stands for the
`Decomposed` branch (line 1467 onward), outside the scope of this
development. -/
def exportNodeTransformUpper (sampleAnimationFlag : Bool) (node : NodeTransformInput)
    (currentFrame beginFrame endFrame : ℤ) (frameTime : ℚ) : Option (List WEvent) :=
  let (sampledAnimation, st) := nodeSampledDecision sampleAnimationFlag node
  if sampledAnimation || st.noneAnimated then
    some ([WEvent.indent "Transform" 0 false]
      ++ (if sampledAnimation then [WEvent.raw " %transform"] else [])
      ++ [WEvent.indent "\x7b\n" 0 true, WEvent.indent "float[16]\n" 0 false,
          WEvent.indent "\x7b\n" 0 false,
          WEvent.mat (node.matrix_local currentFrame),
          WEvent.indent "\x7d\n" 0 false, WEvent.indent "\x7d\n" 0 false]
      ++ (if sampledAnimation then
            exportNodeSampledAnimation node.matrix_local currentFrame beginFrame
              endFrame frameTime
          else []))
  else none

/-!
## SkinEmitter: the weight loop of `ExportSkin` (lines 2232-2264)
-/

/-- One entry of `meshVertexArray[v].groups`: a vertex-group index and the
group weight. -/
structure VertexGroupElement where
  group : ℕ
  weight : ℚ
deriving DecidableEq, Repr

/-- Lines 2232-2241: map each of the node's vertex groups to the index of the
like-named bone, or `-1` if no bone matches. -/
def buildGroupRemap (vertexGroupNames : List String) (boneNames : List String) :
    List ℤ :=
  vertexGroupNames.map fun groupName =>
    match boneNames.findIdx? (fun name => name = groupName) with
    | some i => (i : ℤ)
    | none => -1

/-- The accumulation of one vertex's influences (lines 2249-2258): for each
group element, keep `(boneIndex, weight)` when the group maps to a bone
(`boneIndex >= 0`) and the weight is nonzero. -/
def skinVertexPairs (groupRemap : List ℤ) (elements : List VertexGroupElement) :
    List (ℤ × ℚ) :=
  elements.filterMap fun element =>
    let boneIndex := groupRemap.getD element.group (-1)
    let boneWeight := element.weight
    if boneIndex ≥ 0 && boneWeight ≠ 0 then some (boneIndex, boneWeight) else none

/-- `totalWeight` accumulated for one vertex. -/
def skinVertexTotalWeight (groupRemap : List ℤ) (elements : List VertexGroupElement) : ℚ :=
  ((skinVertexPairs groupRemap elements).map Prod.snd).sum

/-- Lines 2261-2264: when `totalWeight != 0.0`, multiply this vertex's
weights (the last `boneCount` entries of the global weight array) by
`normalizer = 1.0 / totalWeight`. -/
def skinVertexNormalized (groupRemap : List ℤ) (elements : List VertexGroupElement) :
    List (ℤ × ℚ) :=
  let pairs := skinVertexPairs groupRemap elements
  let totalWeight := skinVertexTotalWeight groupRemap elements
  if totalWeight ≠ 0 then
    pairs.map fun p => (p.1, p.2 * (1 / totalWeight))
  else pairs

/-- The whole per-vertex loop of `ExportSkin` (lines 2243-2264): one bone
count per export vertex, and the concatenated bone index and (normalized)
weight arrays.  `vertexGroups v` is `meshVertexArray[v].groups` and
`evVertexIndices` lists `ev.vertexIndex` over `exportVertexArray`. -/
def exportSkinWeights (groupRemap : List ℤ)
    (vertexGroups : List (List VertexGroupElement)) (evVertexIndices : List ℕ) :
    List ℕ × List ℤ × List ℚ :=
  evVertexIndices.foldl
    (fun (acc : List ℕ × List ℤ × List ℚ) vertexIndex =>
      let elements := vertexGroups.getD vertexIndex []
      let normalized := skinVertexNormalized groupRemap elements
      (acc.1 ++ [normalized.length],
       acc.2.1 ++ normalized.map Prod.fst,
       acc.2.2 ++ normalized.map Prod.snd))
    ([], [], [])

/-!
## DocumentWriter output buffer and file flush (C5, C6)

`io.BytesIO` is modelled as a byte string (a `List Char`) plus a stream
position; `write` overwrites at the position and advances it, `seek(0)`
rewinds, and `shutil.copyfileobj(buffer, f)` hands the file everything from
the current position to the end of the stream.
-/

/-- An in-memory `BytesIO` stream. -/
structure PyByteBuf where
  data : List Char
  pos : ℕ
deriving DecidableEq, Repr

/-- `BytesIO.write`: overwrite at the current position, advance it. -/
def PyByteBuf.write (b : PyByteBuf) (s : List Char) : PyByteBuf :=
  { data := b.data.take b.pos ++ s ++ b.data.drop (b.pos + s.length)
    pos := b.pos + s.length }

/-- `BytesIO.seek(0)`. -/
def PyByteBuf.seek0 (b : PyByteBuf) : PyByteBuf :=
  { b with pos := 0 }

/-- The bytes `shutil.copyfileobj(buffer, f)` delivers to the freshly opened
(`"wb"`, hence truncated) file: everything from the current position on. -/
def PyByteBuf.copyToFile (b : PyByteBuf) : List Char :=
  b.data.drop b.pos

/-- `WriteBuffer.write_to_file` of `opengex_exporter.py` (lines 147-151):
`seek(0)` and then copy, so the file receives the whole buffer. -/
def writeBufferToFile (b : PyByteBuf) : List Char :=
  b.seek0.copyToFile

/-- `Buffer.write_to_file` of `export_v1.py` (lines 144-146): copy without
the `seek(0)`. -/
def v1BufferToFile (b : PyByteBuf) : List Char :=
  b.copyToFile

/-- An export run's writes into a fresh buffer (`execute` builds the whole
document through `self.file.write` before the single `write_to_file` call at
the end, lines 3023-3084; the output file is first opened inside
`write_to_file`, so an abort at any earlier point leaves it untouched). -/
def runWrites (chunks : List (List Char)) : PyByteBuf :=
  chunks.foldl PyByteBuf.write ⟨[], 0⟩

/-!
## Python float semantics (C5, C8)

`PyFloat` models the value of a CPython `float` object: an exact rational for
a finite double, the two infinities, or NaN.  A NaN carries the object's
identity (`id`), because CPython ≥ 3.10 (Blender 4.3 ships 3.11) hashes NaN
by object address.
-/

/-- The value of a CPython float object. -/
inductive PyFloat where
  | finite (q : ℚ)
  | inf
  | ninf
  | nan (objId : ℕ)
deriving DecidableEq, Repr

/-- `math.isinf`. -/
def PyFloat.isinf : PyFloat → Bool
  | .inf => true
  | .ninf => true
  | _ => false

/-- `math.isnan`. -/
def PyFloat.isnan : PyFloat → Bool
  | .nan _ => true
  | _ => false

/-- A Python exception raised by the embedded code. -/
inductive PyError where
  | valueError
  | typeError
  | overflowError
deriving DecidableEq, Repr

/-- Round a rational to the nearest integer, ties to even (the rounding of
CPython's float formatting and of float32 conversion). -/
def roundHalfEven (q : ℚ) : ℤ :=
  let fl := ⌊q⌋
  let fr := q - (fl : ℚ)
  if fr > 1 / 2 then fl + 1
  else if fr < 1 / 2 then fl
  else if fl % 2 = 0 then fl else fl + 1

/-- Left-pad a digit string with zeros to the given width. -/
def padZeros (s : String) (width : ℕ) : String :=
  String.mk (List.replicate (width - s.length) '0') ++ s

/-- Python `"\x7b:.6f\x7d".format(f)` on a finite float of exact value `q`. -/
def formatFixed6 (q : ℚ) : String :=
  let n := roundHalfEven (q * 1000000)
  let sign := if q < 0 then "-" else ""
  let a := n.natAbs
  sign ++ toString (a / 1000000) ++ "." ++ padZeros (toString (a % 1000000)) 6

/-- Largest `e` with `2^(e+1) ≤ a` reached by doubling upward (fuel-bounded;
doubles never need more than about 1100 steps). -/
def ilog2Up : ℕ → ℚ → ℤ → ℤ
  | 0, _, e => e
  | fuel + 1, a, e => if (2 : ℚ) ^ (e + 1) ≤ a then ilog2Up fuel a (e + 1) else e

/-- Halving downward until `2^e ≤ a`. -/
def ilog2Down : ℕ → ℚ → ℤ → ℤ
  | 0, _, e => e
  | fuel + 1, a, e => if a < (2 : ℚ) ^ e then ilog2Down fuel a (e - 1) else e

/-- Greatest `e` with `2^e ≤ a`, for `a > 0`. -/
def ilog2q (a : ℚ) : ℤ :=
  if 1 ≤ a then ilog2Up 1200 a 0 else ilog2Down 1200 a 0

/-- IEEE-754 binary32 bits of the double of exact value `q`
(round-to-nearest, ties to even), or `none` when the finite value converts
to an infinity — where CPython's `struct.pack("<f", f)` raises
`OverflowError`. -/
def encode32 (q : ℚ) : Option ℕ :=
  if q = 0 then some 0
  else
    let s : ℕ := if q < 0 then 1 else 0
    let a := |q|
    let e := max (ilog2q a) (-126)
    let m := (roundHalfEven (a / (2 : ℚ) ^ (e - 23))).toNat
    let em := if m = 2 ^ 24 then (e + 1, 2 ^ 23) else (e, m)
    if em.1 > 127 then none
    else if em.2 < 2 ^ 23 then some (s <<< 31 ||| em.2)
    else some (s <<< 31 ||| ((em.1 + 127).toNat <<< 23) ||| (em.2 - 2 ^ 23))

/-- One lowercase hex digit. -/
def hexDigit (n : ℕ) : Char :=
  if n < 10 then Char.ofNat ('0'.toNat + n) else Char.ofNat ('a'.toNat + (n - 10))

/-- `"{:08x}".format(i)` for `i < 2^32`. -/
def hex8 (n : ℕ) : String :=
  String.mk ((List.range 8).map fun k => hexDigit (n >>> (4 * (7 - k)) &&& 15))

/-- `OpenGexExporter.float_to_hex` (lines 280-282):
`struct.unpack("<I", struct.pack("<f", f))[0]` rendered as `0x%08x`; raises
`OverflowError` when the finite double exceeds the float32 range. -/
def floatToHex (q : ℚ) : Except PyError String :=
  match encode32 q with
  | some bits => .ok ("0x" ++ hex8 bits)
  | none => .error .overflowError

/-- `OpenGexExporter.write_float_as_is` (lines 274-278): a non-finite float
(`isinf` or `isnan`) writes `b"0.0"`; a finite one writes its `{:.6f}`
rendering.  The result is the byte string appended to the output buffer. -/
def writeFloatAsIs : PyFloat → Except PyError String
  | .finite q => .ok (formatFixed6 q)
  | _ => .ok "0.0"

/-- `OpenGexExporter.write_float_as_hex` (lines 284-288).  On a non-finite
float the source executes `self.file.write("0x{:08x}".format(0.0))`; format
code `x` is invalid for a `float` argument, so CPython raises `ValueError`
before anything is written (and even a successful format would pass a `str`
to `BytesIO.write`, a `TypeError`).  A finite float formats its float32 bit
pattern. -/
def writeFloatAsHex : PyFloat → Except PyError String
  | .finite q => floatToHex q
  | _ => .error .valueError

/-- `OpenGexExporter.write_float` (lines 290-293): dispatch through
`WriteFloatMap[int(option_float_as_hex)]`. -/
def writeFloat (optionFloatAsHex : Bool) (f : PyFloat) : Except PyError String :=
  if optionFloatAsHex then writeFloatAsHex f else writeFloatAsIs f

/-!
## CPython numeric hashing (C8)

CPython defines `hash` on numbers by reduction modulo the Mersenne prime
`P = 2^61 - 1` (documented in the language reference): a nonnegative
rational `m/n` hashes to `m * n^(P-2) mod P`, the sign is applied, and a
result of `-1` is replaced by `-2`.  `hash(inf) = 314159`,
`hash(-inf) = -314159`.  Since CPython 3.10, `hash(nan)` is derived from the
NaN object's address (`_Py_HashPointer`: the 64-bit pointer rotated right by
4 bits, `-1` replaced by `-2`); Blender 4.3 ships CPython 3.11.
-/

/-- Modular exponentiation by squaring (fuel-bounded; the exponent of
interest, `2^61 - 3`, halves to zero within 64 steps). -/
def powModAux : ℕ → ℕ → ℕ → ℕ → ℕ → ℕ
  | 0, _, _, _, acc => acc
  | fuel + 1, b, e, m, acc =>
      if e = 0 then acc
      else powModAux fuel (b * b % m) (e / 2) m (if e % 2 = 1 then acc * b % m else acc)

/-- `pow(b, e, m)`. -/
def powMod (b e m : ℕ) : ℕ :=
  powModAux 128 (b % m) e m (1 % m)

/-- The CPython hash modulus `P = 2^61 - 1`. -/
def pyHashModulus : ℕ := 2 ^ 61 - 1

/-- CPython `hash` of a finite float of exact value `q`. -/
def pyHashRat (q : ℚ) : ℤ :=
  let P := pyHashModulus
  let m := q.num.natAbs % P
  let dinv := powMod (q.den % P) (P - 2) P
  let h := m * dinv % P
  let signed : ℤ := if q.num < 0 then -(h : ℤ) else (h : ℤ)
  if signed = -1 then -2 else signed

/-- CPython `_Py_HashPointer` on a 64-bit build: rotate the address right by
4 bits, reinterpret as a signed 64-bit value, replace `-1` by `-2`. -/
def pyHashPointer (objId : ℕ) : ℤ :=
  let r : ℕ := ((objId >>> 4) ||| (objId <<< 60)) % 2 ^ 64
  let signed : ℤ := if r < 2 ^ 63 then (r : ℤ) else (r : ℤ) - 2 ^ 64
  if signed = -1 then -2 else signed

/-- CPython `hash` of a float object (3.11 semantics). -/
def pyHashFloat : PyFloat → ℤ
  | .finite q => pyHashRat q
  | .inf => 314159
  | .ninf => -314159
  | .nan objId => pyHashPointer objId

/-- The scalar fields of an `ExportVertex` as CPython float objects, for the
`Hash` method (lines 123-137 of both implementations). -/
structure PyVertexData where
  position : List PyFloat
  normal : List PyFloat
  color : List PyFloat
  texcoord0 : List PyFloat
  texcoord1 : List PyFloat
deriving DecidableEq, Repr

/-- `ExportVertex.Hash` (lines 123-137 of `opengex_exporter.py`, lines
120-134 of `export_v1.py`): `h = hash(position[0])`, then
`h = h * 21737 + hash(field)` over the remaining scalar fields.  Python ints
are unbounded, so the accumulator is an exact `ℤ`. -/
def pyVertexHash (v : PyVertexData) : ℤ :=
  let d : PyFloat := .finite 0
  let h := pyHashFloat (v.position.getD 0 d)
  let h := h * 21737 + pyHashFloat (v.position.getD 1 d)
  let h := h * 21737 + pyHashFloat (v.position.getD 2 d)
  let h := h * 21737 + pyHashFloat (v.normal.getD 0 d)
  let h := h * 21737 + pyHashFloat (v.normal.getD 1 d)
  let h := h * 21737 + pyHashFloat (v.normal.getD 2 d)
  let h := h * 21737 + pyHashFloat (v.color.getD 0 d)
  let h := h * 21737 + pyHashFloat (v.color.getD 1 d)
  let h := h * 21737 + pyHashFloat (v.color.getD 2 d)
  let h := h * 21737 + pyHashFloat (v.texcoord0.getD 0 d)
  let h := h * 21737 + pyHashFloat (v.texcoord0.getD 1 d)
  let h := h * 21737 + pyHashFloat (v.texcoord1.getD 0 d)
  let h := h * 21737 + pyHashFloat (v.texcoord1.getD 1 d)
  h

/-- Whether two CPython float objects carry the same value (object identity
disregarded; NaN counts as one value). -/
def pyFloatSameValue : PyFloat → PyFloat → Bool
  | .finite a, .finite b => a = b
  | .inf, .inf => true
  | .ninf, .ninf => true
  | .nan _, .nan _ => true
  | _, _ => false

/-- Whether a CPython float object is a NaN. -/
def pyFloatIsNaN : PyFloat → Bool
  | .nan _ => true
  | _ => false

/-- Field lists of a `PyVertexData`, in the order `Hash` consumes them. -/
def pyVertexFields (v : PyVertexData) : List PyFloat :=
  let d : PyFloat := .finite 0
  [v.position.getD 0 d, v.position.getD 1 d, v.position.getD 2 d,
   v.normal.getD 0 d, v.normal.getD 1 d, v.normal.getD 2 d,
   v.color.getD 0 d, v.color.getD 1 d, v.color.getD 2 d,
   v.texcoord0.getD 0 d, v.texcoord0.getD 1 d,
   v.texcoord1.getD 0 d, v.texcoord1.getD 1 d]

/-- `ExportVertex.Hash` specialized to finite (rational-valued) coordinates,
used by `deindex_mesh` when it hashes every export vertex (line 802-803). -/
def vertexHashQ (v : ExportVertex) : ℤ :=
  let h := pyHashRat (v.position.getD 0 0)
  let h := h * 21737 + pyHashRat (v.position.getD 1 0)
  let h := h * 21737 + pyHashRat (v.position.getD 2 0)
  let h := h * 21737 + pyHashRat (v.normal.getD 0 0)
  let h := h * 21737 + pyHashRat (v.normal.getD 1 0)
  let h := h * 21737 + pyHashRat (v.normal.getD 2 0)
  let h := h * 21737 + pyHashRat (v.color.getD 0 0)
  let h := h * 21737 + pyHashRat (v.color.getD 1 0)
  let h := h * 21737 + pyHashRat (v.color.getD 2 0)
  let h := h * 21737 + pyHashRat (v.texcoord0.getD 0 0)
  let h := h * 21737 + pyHashRat (v.texcoord0.getD 1 0)
  let h := h * 21737 + pyHashRat (v.texcoord1.getD 0 0)
  let h := h * 21737 + pyHashRat (v.texcoord1.getD 1 0)
  h

/-!
## `deindex_mesh` (lines 716-805 of `opengex_exporter.py`; `DeindexMesh`,
lines 679-767 of `export_v1.py` — byte-identical logic)

Out-of-range accesses, which raise `IndexError` in Python, surface as `none`.
-/

/-- A mesh vertex: `co` and per-vertex `normal`. -/
structure MeshVertex where
  co : List ℚ
  normal : List ℚ
deriving DecidableEq, Repr

/-- One entry of `mesh.loop_triangles`. -/
structure LoopTri where
  vertices : List ℕ
  loops : List ℕ
  use_smooth : Bool
  normal : List ℚ
  material_index : ℕ
deriving DecidableEq, Repr

/-- One record of a vertex-color layer's `data` (an RGBA quadruple). -/
structure ColorRec where
  color : List ℚ
deriving DecidableEq, Repr

/-- A vertex-color layer. -/
structure ColorLayer where
  data : List ColorRec
deriving DecidableEq, Repr

/-- One record of a UV layer's `data`. -/
structure UVRec where
  uv : List ℚ
deriving DecidableEq, Repr

/-- A UV layer. -/
structure UVLayer where
  data : List UVRec
deriving DecidableEq, Repr

/-- The slice of a Blender mesh consumed by `deindex_mesh` (after
`calc_loop_triangles`). -/
structure MeshData where
  vertices : List MeshVertex
  loop_triangles : List LoopTri
  vertex_colors : List ColorLayer
  uv_layers : List UVLayer
deriving DecidableEq, Repr

/-- The three `ExportVertex` records built for corner indices `k1,k2,k3` of
one face (lines 736-755): position and (smooth-dependent) normal are taken
from the mesh, `color`/`texcoord0`/`texcoord1` keep the `__init__` defaults
`[1,1,1]`/`[0,0]`/`[0,0]`, and `hash` is still unset (0 here; it is
overwritten by the final `Hash()` pass before any read). -/
def mkCornerVertex (faceIndex : ℕ) (face : LoopTri) (k : ℕ) (v : MeshVertex) :
    ExportVertex :=
  { hash := 0, vertexIndex := k, faceIndex := faceIndex
    position := v.co
    normal := if face.use_smooth then v.normal else face.normal
    color := [1, 1, 1], texcoord0 := [0, 0], texcoord1 := [0, 0] }

/-- The first loop of `deindex_mesh` (lines 727-759): three export vertices
per face plus the face's material index. -/
def deindexBase (meshVertices : List MeshVertex) :
    List LoopTri → ℕ → List ExportVertex → List ℕ →
    Option (List ExportVertex × List ℕ)
  | [], _, evs, mats => some (evs, mats)
  | face :: rest, faceIndex, evs, mats => do
      let k1 ← face.vertices[0]?
      let k2 ← face.vertices[1]?
      let k3 ← face.vertices[2]?
      let v1 ← meshVertices[k1]?
      let v2 ← meshVertices[k2]?
      let v3 ← meshVertices[k3]?
      deindexBase meshVertices rest (faceIndex + 1)
        (evs ++ [mkCornerVertex faceIndex face k1 v1,
                 mkCornerVertex faceIndex face k2 v2,
                 mkCornerVertex faceIndex face k3 v3])
        (mats ++ [face.material_index])

/-- `exportVertexArray[idx].color[comp] = val` (with Python's `IndexError` on
a missing vertex as `none`; `comp` is always 0-2 and the color list always
has three entries). -/
def setColorAt (evs : List ExportVertex) (idx comp : ℕ) (val : ℚ) :
    Option (List ExportVertex) :=
  match evs[idx]? with
  | some ev => some (evs.set idx { ev with color := ev.color.set comp val })
  | none => none

/-- The vertex-color loop of `deindex_mesh` (lines 764-784): per face, the
color record at index `faceIndex` of the first layer's data supplies one
component per corner — red to corner 0, green to corner 1, blue to corner 2
(the four-vertex branch is retained from the source although
`loop_triangles` faces always have three vertices). -/
def colorPass (colorData : List ColorRec) :
    List LoopTri → ℕ → ℕ → List ExportVertex → Option (List ExportVertex)
  | [], _, _, evs => some evs
  | face :: rest, vertexIndex, faceIndex, evs => do
      let cf ← colorData[faceIndex]?
      let c0 ← cf.color[0]?
      let evs ← setColorAt evs vertexIndex 0 c0
      let c1 ← cf.color[1]?
      let evs ← setColorAt evs (vertexIndex + 1) 1 c1
      let c2 ← cf.color[2]?
      let evs ← setColorAt evs (vertexIndex + 2) 2 c2
      if face.vertices.length = 4 then do
        let d1 ← cf.color[1]?
        let evs ← setColorAt evs (vertexIndex + 3) 0 d1
        let d2 ← cf.color[2]?
        let evs ← setColorAt evs (vertexIndex + 4) 1 d2
        let d3 ← cf.color[3]?
        let evs ← setColorAt evs (vertexIndex + 5) 2 d3
        colorPass colorData rest (vertexIndex + 6) (faceIndex + 1) evs
      else colorPass colorData rest (vertexIndex + 3) (faceIndex + 1) evs

/-- Per-loop body of the UV pass (lines 791-800). -/
def uvSetOne (uv0 uv1 : Option UVLayer) (loopIndex vertexIndex : ℕ)
    (evs : List ExportVertex) : Option (List ExportVertex) := do
  let evs ←
    match uv0 with
    | some layer => do
        let rec0 ← layer.data[loopIndex]?
        match evs[vertexIndex]? with
        | some ev => some (evs.set vertexIndex { ev with texcoord0 := rec0.uv })
        | none => none
    | none => some evs
  match uv1 with
  | some layer => do
      let rec1 ← layer.data[loopIndex]?
      match evs[vertexIndex]? with
      | some ev => some (evs.set vertexIndex { ev with texcoord1 := rec1.uv })
      | none => none
  | none => some evs

/-- The inner `for loop_index in tri.loops` walk. -/
def uvLoopWalk (uv0 uv1 : Option UVLayer) :
    List ℕ → ℕ → List ExportVertex → Option (ℕ × List ExportVertex)
  | [], vertexIndex, evs => some (vertexIndex, evs)
  | loopIndex :: rest, vertexIndex, evs => do
      let evs ← uvSetOne uv0 uv1 loopIndex vertexIndex evs
      uvLoopWalk uv0 uv1 rest (vertexIndex + 1) evs

/-- The UV loop of `deindex_mesh` (lines 789-800). -/
def uvPass (uv0 uv1 : Option UVLayer) :
    List LoopTri → ℕ → List ExportVertex → Option (List ExportVertex)
  | [], _, evs => some evs
  | tri :: rest, vertexIndex, evs => do
      let r ← uvLoopWalk uv0 uv1 tri.loops vertexIndex evs
      uvPass uv0 uv1 rest r.1 r.2

/-- `OpenGexExporter.deindex_mesh` (lines 716-805): deindex, color pass
(first color layer, when present and enabled), UV pass, then `ev.Hash()` on
every record.  Returns the export vertex array and the material table. -/
def deindexMesh (mesh : MeshData) (shouldExportVertexColor : Bool) :
    Option (List ExportVertex × List ℕ) := do
  let (evs, mats) ← deindexBase mesh.vertices mesh.loop_triangles 0 [] []
  let evs ←
    if mesh.vertex_colors.length > 0 && shouldExportVertexColor then do
      let layer0 ← mesh.vertex_colors[0]?
      colorPass layer0.data mesh.loop_triangles 0 0 evs
    else some evs
  let uv0 := mesh.uv_layers[0]?
  let uv1 := mesh.uv_layers[1]?
  let evs ← uvPass uv0 uv1 mesh.loop_triangles 0 evs
  some (evs.map fun ev => { ev with hash := vertexHashQ ev }, mats)

/-!
## Helper lemmas
-/

/-- `vertexEq` is structural equality of the hash and the five coordinate
sequences. -/
theorem vertexEq_iff {a b : ExportVertex} :
    vertexEq a b = true ↔
      a.hash = b.hash ∧ a.position = b.position ∧ a.normal = b.normal ∧
      a.color = b.color ∧ a.texcoord0 = b.texcoord0 ∧ a.texcoord1 = b.texcoord1 := by
  unfold vertexEq
  split_ifs <;> simp_all

theorem vertexEq_refl (a : ExportVertex) : vertexEq a a = true := by
  simp [vertexEq_iff]

theorem vertexEq_symm {a b : ExportVertex} (h : vertexEq a b = true) :
    vertexEq b a = true := by
  rw [vertexEq_iff] at h ⊢
  obtain ⟨h1, h2, h3, h4, h5, h6⟩ := h
  exact ⟨h1.symm, h2.symm, h3.symm, h4.symm, h5.symm, h6.symm⟩

theorem vertexEq_trans {a b c : ExportVertex} (hab : vertexEq a b = true)
    (hbc : vertexEq b c = true) : vertexEq a c = true := by
  rw [vertexEq_iff] at hab hbc ⊢
  obtain ⟨h1, h2, h3, h4, h5, h6⟩ := hab
  obtain ⟨g1, g2, g3, g4, g5, g6⟩ := hbc
  exact ⟨h1.trans g1, h2.trans g2, h3.trans g3, h4.trans g4, h5.trans g5, h6.trans g6⟩

/-!
## C5 — non-finite float serialization
-/

/-- C5: the claim says every non-finite float (NaN, ±Infinity) serializes as
zero in both float modes without raising.  That holds for the 6-decimal mode
(`write_float_as_is` writes `b"0.0"`), but in the hex mode the source runs
`"0x{:08x}".format(0.0)`, and format code `x` applied to a `float` raises
`ValueError`, so `write_float` raises instead of writing zero: the code
contradicts the documented intent.  This theorem evaluates the embedded
writers at the failing inputs. -/
theorem C5_nonfinite_serialization :
    writeFloat false PyFloat.inf = .ok "0.0" ∧
    writeFloat false PyFloat.ninf = .ok "0.0" ∧
    writeFloat false (PyFloat.nan 0) = .ok "0.0" ∧
    writeFloat true PyFloat.inf = .error .valueError ∧
    writeFloat true PyFloat.ninf = .error .valueError ∧
    writeFloat true (PyFloat.nan 0) = .error .valueError := by
  refine ⟨rfl, rfl, rfl, rfl, rfl, rfl⟩

/-!
## C6 — atomic single-flush output
-/

/-- After a run of buffer writes the stream position sits at the end of the
accumulated data. -/
theorem runWrites_spec (chunks : List (List Char)) :
    (runWrites chunks).data = chunks.flatten ∧
    (runWrites chunks).pos = (runWrites chunks).data.length := by
  suffices h : ∀ (b : PyByteBuf), b.pos = b.data.length →
      (chunks.foldl PyByteBuf.write b).data = b.data ++ chunks.flatten ∧
      (chunks.foldl PyByteBuf.write b).pos = (chunks.foldl PyByteBuf.write b).data.length by
    simpa [runWrites] using h ⟨[], 0⟩ rfl
  induction chunks with
  | nil => intro b hb; simp [hb]
  | cons c rest ih =>
      intro b hb
      have hw : (b.write c).pos = (b.write c).data.length := by
        simp [PyByteBuf.write, hb, List.take_of_length_le]
      have := ih (b.write c) hw
      rw [List.foldl_cons]
      constructor
      · rw [this.1]
        simp [PyByteBuf.write, hb, List.take_of_length_le, List.drop_eq_nil_of_le]
      · exact this.2

/-- C6: the claim says a partial or empty document is never produced, "for
both near-duplicate implementations".  The main implementation's
`WriteBuffer.write_to_file` rewinds (`seek(0)`) and so flushes the complete
buffer in one copy; but `export_v1.py`'s `Buffer.write_to_file` omits the
`seek(0)`, so `copyfileobj` starts at the end-of-stream position left by the
last write and the freshly truncated output file receives zero bytes: v1
always produces an empty document.  Evaluated here on a concrete run of two
writes. -/
theorem C6_v1_flush_empty :
    writeBufferToFile (runWrites [['O', 'g', 'e', 'x'], ['a', 'b']]) =
      ['O', 'g', 'e', 'x', 'a', 'b'] ∧
    v1BufferToFile (runWrites [['O', 'g', 'e', 'x'], ['a', 'b']]) = [] ∧
    (['O', 'g', 'e', 'x', 'a', 'b'] : List Char) ≠ [] := by
  refine ⟨rfl, rfl, by decide⟩

/-!
## C2 — `AnimationPresent`
-/

instance : Inhabited Keyframe :=
  ⟨⟨"", (0, 0), (0, 0), (0, 0)⟩⟩

/-- A linear keyframe with flat handles at value `v`, used to probe
`AnimationPresent`. -/
def probeKey (v : ℚ) : Keyframe :=
  { interpolation := "LINEAR", co := (0, v), handle_left := (0, v), handle_right := (0, v) }

/-- A three-key linear curve with values `0`, `9e-7`, `-9e-7`: its second and
third keyframes differ by `1.8e-6 > EPSILON`, yet each is within `EPSILON`
of the first keyframe. -/
def c2Curve : FCurve :=
  { data_path := "location", array_index := 0
    keyframe_points := [probeKey 0, probeKey (9 / 10000000), probeKey (-9 / 10000000)] }

/-- The comparison `AnimationKeysDifferent` actually implements, written from
the amended claim: some keyframe after the first differs from the FIRST
keyframe's value by more than `EPSILON`. -/
def keysDifferFromFirstSpec (c : FCurve) : Prop :=
  ∃ i, 0 < i ∧ i < c.keyframe_points.length ∧
    |(c.keyframe_points.getD i default).co.2 -
      (c.keyframe_points.getD 0 default).co.2| > EPSILON

/-- The Bezier handle test, written from the claim: some keyframe's left or
right handle value deviates from that keyframe's value by more than
`EPSILON`. -/
def tangentDeviatesSpec (c : FCurve) : Prop :=
  ∃ kf ∈ c.keyframe_points,
    |kf.co.2 - kf.handle_left.2| > EPSILON ∨ |kf.handle_right.2 - kf.co.2| > EPSILON

theorem animationKeysDifferent_iff (c : FCurve) :
    animationKeysDifferent c = true ↔ keysDifferFromFirstSpec c := by
  unfold animationKeysDifferent keysDifferFromFirstSpec
  match h : c.keyframe_points with
  | [] =>
      simp [h]
  | first :: rest =>
      rw [List.any_eq_true]
      constructor
      · rintro ⟨kf, hmem, hkf⟩
        obtain ⟨j, hj, rfl⟩ := List.mem_iff_getElem.mp hmem
        refine ⟨j + 1, Nat.succ_pos j, by simpa using Nat.succ_lt_succ hj, ?_⟩
        have h1 : (first :: rest).getD (j + 1) default = rest[j] := by
          simp [List.getD, List.getElem?_eq_getElem hj]
        have h0 : (first :: rest).getD 0 default = first := rfl
        rw [h1, h0]
        simpa using hkf
      · rintro ⟨i, h0, hi, hdiff⟩
        match i, h0 with
        | j + 1, _ =>
            have hj : j < rest.length := by simpa using hi
            refine ⟨rest[j], List.getElem_mem hj, ?_⟩
            have h1 : (first :: rest).getD (j + 1) default = rest[j] := by
              simp [List.getD, List.getElem?_eq_getElem hj]
            have h02 : (first :: rest).getD 0 default = first := rfl
            rw [h1, h02] at hdiff
            simpa using hdiff

theorem animationTangentsNonzero_iff (c : FCurve) :
    animationTangentsNonzero c = true ↔ tangentDeviatesSpec c := by
  unfold animationTangentsNonzero tangentDeviatesSpec
  match h : c.keyframe_points with
  | [] => simp [h]
  | first :: rest =>
      rw [List.any_eq_true]
      constructor
      · rintro ⟨kf, hmem, hkf⟩
        exact ⟨kf, hmem, by simpa using hkf⟩
      · rintro ⟨kf, hmem, hkf⟩
        exact ⟨kf, hmem, by simpa using hkf⟩

/-- C2 counterexample: the claim says `AnimationPresent` on a Linear curve is
true iff SOME TWO keyframes differ by more than `EPSILON`.  On `c2Curve`
(values `0, 9e-7, -9e-7`) keyframes 1 and 2 differ by `1.8e-6 > EPSILON`,
but `AnimationPresent` returns `false`, because `AnimationKeysDifferent`
only compares each later keyframe against the first one. -/
theorem C2_counterexample :
    classifyAnimationCurve c2Curve = ANIMATION_LINEAR ∧
    |(c2Curve.keyframe_points.getD 1 default).co.2 -
      (c2Curve.keyframe_points.getD 2 default).co.2| > EPSILON ∧
    animationPresent c2Curve ANIMATION_LINEAR = false := by
  refine ⟨rfl, ?_, ?_⟩
  · simp only [c2Curve, probeKey, List.getD_cons_succ, List.getD_cons_zero]
    rw [gt_iff_lt, abs_of_pos (by norm_num)]
    norm_num [EPSILON]
  · have h : animationKeysDifferent c2Curve = false := by
      by_contra hcon
      rw [Bool.not_eq_false, animationKeysDifferent_iff] at hcon
      obtain ⟨i, h0, hi, hd⟩ := hcon
      have h3 : i < 3 := by simpa [c2Curve] using hi
      interval_cases i
      · simp only [c2Curve, probeKey, List.getD_cons_succ, List.getD_cons_zero] at hd
        rw [sub_zero, abs_of_pos (by norm_num)] at hd
        norm_num [EPSILON] at hd
      · simp only [c2Curve, probeKey, List.getD_cons_succ, List.getD_cons_zero] at hd
        rw [sub_zero, abs_of_neg (by norm_num)] at hd
        norm_num [EPSILON] at hd
    show animationPresent c2Curve ANIMATION_LINEAR = false
    unfold animationPresent
    rw [if_pos (by decide), h]

/-- C2 amended: `AnimationPresent(curve, kind)` is true, for `kind` other
than Bezier, iff some keyframe after the first differs from the FIRST
keyframe's value by more than `EPSILON` (not: some two keyframes differ);
for Bezier additionally iff some keyframe's handle deviates from its key
value by more than `EPSILON`. -/
theorem C2_present_amended (c : FCurve) (kind : ℕ) :
    animationPresent c kind = true ↔
      (keysDifferFromFirstSpec c ∨
        (kind = ANIMATION_BEZIER ∧ tangentDeviatesSpec c)) := by
  unfold animationPresent
  by_cases hk : kind = ANIMATION_BEZIER
  · subst hk
    rw [if_neg (by simp), Bool.or_eq_true, animationKeysDifferent_iff,
      animationTangentsNonzero_iff]
    tauto
  · rw [if_pos hk, animationKeysDifferent_iff]
    tauto

/-!
## C8 — `ExportVertex.Hash`
-/

/-- A vertex whose first position component is a NaN float object with
address-derived id 16; every other field is an ordinary finite float. -/
def c8VertexA : PyVertexData :=
  { position := [.nan 16, .finite 0, .finite 0]
    normal := [.finite 0, .finite 0, .finite 1]
    color := [.finite 1, .finite 1, .finite 1]
    texcoord0 := [.finite 0, .finite 0]
    texcoord1 := [.finite 0, .finite 0] }

/-- The same vertex but with the NaN stored in a different object (id 32). -/
def c8VertexB : PyVertexData :=
  { position := [.nan 32, .finite 0, .finite 0]
    normal := [.finite 0, .finite 0, .finite 1]
    color := [.finite 1, .finite 1, .finite 1]
    texcoord0 := [.finite 0, .finite 0]
    texcoord1 := [.finite 0, .finite 0] }

/-- C8 counterexample: the claim says vertices with identical field values
always receive the same hash and that non-finite fields hash to a fixed,
consistent value.  Under CPython ≥ 3.10 (Blender 4.3 ships 3.11) `hash(nan)`
is derived from the NaN object's address, so two vertices whose fields carry
identical values — a NaN in the first position slot — hash differently when
the NaN objects differ, and `hash(nan)` is not a fixed value. -/
theorem C8_counterexample :
    ((pyVertexFields c8VertexA).zip (pyVertexFields c8VertexB)).all
        (fun p => pyFloatSameValue p.1 p.2) = true ∧
    pyFloatIsNaN ((pyVertexFields c8VertexA).getD 0 (.finite 0)) = true ∧
    pyHashFloat (PyFloat.nan 16) ≠ pyHashFloat (PyFloat.nan 32) ∧
    pyVertexHash c8VertexA ≠ pyVertexHash c8VertexB := by
  refine ⟨by decide, by decide, by decide, by decide⟩

/-- If two float objects carry the same value and neither is a NaN, CPython
hashes them alike. -/
theorem pyHashFloat_of_sameValue {a b : PyFloat}
    (hs : pyFloatSameValue a b = true) (hn : pyFloatIsNaN a = false) :
    pyHashFloat a = pyHashFloat b := by
  cases a <;> cases b <;> simp_all [pyFloatSameValue, pyFloatIsNaN, pyHashFloat]

/-- `pyVertexHash` as a fold over the field list. -/
theorem pyVertexHash_eq_fold (v : PyVertexData) :
    pyVertexHash v =
      (pyVertexFields v).foldl (fun h f => h * 21737 + pyHashFloat f) 0 := by
  simp [pyVertexHash, pyVertexFields, List.foldl]

/-- C8 amended: `Hash` is a pure, deterministic, total function of the field
objects, combining them via `h = h*21737 + hash(field)`; two vertices whose
fields carry identical values receive the same hash PROVIDED no field is a
NaN; `+inf`/`-inf` hash to the fixed CPython values `314159`/`-314159`; a
NaN field hashes by object identity (CPython ≥ 3.10), so NaN-carrying
vertices are exempt from value-determinism (see the counterexample). -/
theorem C8_hash_amended (v w : PyVertexData)
    (hsame : List.Forall₂ (fun a b => pyFloatSameValue a b = true)
      (pyVertexFields v) (pyVertexFields w))
    (hnonan : ∀ f ∈ pyVertexFields v, pyFloatIsNaN f = false) :
    pyVertexHash v = pyVertexHash w ∧
    pyHashFloat PyFloat.inf = 314159 ∧ pyHashFloat PyFloat.ninf = -314159 := by
  refine ⟨?_, rfl, rfl⟩
  rw [pyVertexHash_eq_fold, pyVertexHash_eq_fold]
  have hmap : ∀ (xs ys : List PyFloat),
      List.Forall₂ (fun a b => pyFloatSameValue a b = true) xs ys →
      (∀ f ∈ xs, pyFloatIsNaN f = false) →
      xs.map pyHashFloat = ys.map pyHashFloat := by
    intro xs ys hf
    induction hf with
    | nil => intro _; rfl
    | cons hab htail ih =>
        rename_i a b l₁ l₂
        intro hn
        have ha : pyFloatIsNaN a = false := hn a (by simp)
        have hhd := pyHashFloat_of_sameValue hab ha
        have htl := ih fun f hf => hn f (by simp [hf])
        simp only [List.map_cons, hhd, htl]
  have hfold : ∀ l : List PyFloat,
      l.foldl (fun h f => h * 21737 + pyHashFloat f) 0 =
        (l.map pyHashFloat).foldl (fun h x => h * 21737 + x) 0 := by
    intro l
    rw [List.foldl_map]
  rw [hfold, hfold, hmap _ _ hsame hnonan]

/-- A concrete all-finite vertex for the amended-hash witness. -/
def c8FiniteVertex : PyVertexData :=
  { position := [.finite 2, .finite 0, .finite 0]
    normal := [.finite 0, .finite 0, .finite 1]
    color := [.finite 1, .finite 1, .finite 1]
    texcoord0 := [.finite 0, .finite 0]
    texcoord1 := [.finite 0, .finite 0] }

theorem C8_hash_amended_witness :
    (List.Forall₂ (fun a b => pyFloatSameValue a b = true)
      (pyVertexFields c8FiniteVertex) (pyVertexFields c8FiniteVertex)) ∧
    (∀ f ∈ pyVertexFields c8FiniteVertex, pyFloatIsNaN f = false) ∧
    (pyVertexHash c8FiniteVertex = pyVertexHash c8FiniteVertex ∧
      pyHashFloat PyFloat.inf = 314159 ∧ pyHashFloat PyFloat.ninf = -314159) :=
  ⟨by simp [pyVertexFields, c8FiniteVertex, List.forall₂_cons, pyFloatSameValue],
   by decide,
   C8_hash_amended c8FiniteVertex c8FiniteVertex
     (by simp [pyVertexFields, c8FiniteVertex, List.forall₂_cons, pyFloatSameValue])
     (by decide)⟩

/-!
## C4 — skin weight accumulation and normalization
-/

/-- C4: per vertex, the skin exporter accumulates `(boneIndex, weight)` pairs
only for groups that map to a bone (`groupRemap` entry `≥ 0`) and carry a
nonzero weight; when the accumulated raw total is nonzero the written
weights sum to 1 within `EPSILON` (here exactly 1, by exact rational
arithmetic mirroring `weight *= 1.0/totalWeight`); when the raw total is
zero the vertex is exported with zero influences.  The hypothesis `hw`
records the host invariant that Blender vertex-group weights are
nonnegative (they live in `[0, 1]`). -/
theorem C4_skin_weights (groupRemap : List ℤ) (elements : List VertexGroupElement)
    (hw : ∀ e ∈ elements, 0 ≤ e.weight) :
    (∀ p ∈ skinVertexPairs groupRemap elements,
        0 ≤ p.1 ∧ p.2 ≠ 0 ∧
        ∃ e ∈ elements, groupRemap.getD e.group (-1) = p.1 ∧ e.weight = p.2) ∧
    (skinVertexTotalWeight groupRemap elements ≠ 0 →
        |((skinVertexNormalized groupRemap elements).map Prod.snd).sum - 1| ≤ EPSILON) ∧
    (skinVertexTotalWeight groupRemap elements = 0 →
        skinVertexNormalized groupRemap elements = []) := by
  have hmem : ∀ p ∈ skinVertexPairs groupRemap elements,
      0 ≤ p.1 ∧ p.2 ≠ 0 ∧
      ∃ e ∈ elements, groupRemap.getD e.group (-1) = p.1 ∧ e.weight = p.2 := by
    intro p hp
    rw [skinVertexPairs, List.mem_filterMap] at hp
    obtain ⟨e, he, hfe⟩ := hp
    by_cases hc : groupRemap.getD e.group (-1) ≥ 0 && e.weight ≠ 0
    · rw [if_pos hc] at hfe
      simp only [Bool.and_eq_true, decide_eq_true_eq, ge_iff_le] at hc
      cases hfe
      exact ⟨hc.1, hc.2, e, he, rfl, rfl⟩
    · rw [if_neg hc] at hfe
      cases hfe
  refine ⟨hmem, ?_, ?_⟩
  · intro hT
    rw [skinVertexNormalized, if_pos (by simpa using hT), List.map_map]
    have : ((skinVertexPairs groupRemap elements).map
        (Prod.snd ∘ fun p => (p.1, p.2 * (1 / skinVertexTotalWeight groupRemap elements)))).sum
        = skinVertexTotalWeight groupRemap elements *
            (1 / skinVertexTotalWeight groupRemap elements) := by
      have hrw : (Prod.snd ∘ fun p : ℤ × ℚ =>
          (p.1, p.2 * (1 / skinVertexTotalWeight groupRemap elements))) =
          fun p : ℤ × ℚ => p.2 * (1 / skinVertexTotalWeight groupRemap elements) := rfl
      rw [hrw, List.sum_map_mul_right, skinVertexTotalWeight]
    rw [this, mul_one_div, div_self hT]
    norm_num [EPSILON]
  · intro hT
    rw [skinVertexNormalized, if_neg (by simpa using hT)]
    by_contra hne
    have hpos : ∀ x ∈ (skinVertexPairs groupRemap elements).map Prod.snd, 0 < x := by
      intro x hx
      rw [List.mem_map] at hx
      obtain ⟨p, hp, rfl⟩ := hx
      obtain ⟨_, hne2, e, he, _, hwe⟩ := hmem p hp
      have := hw e he
      rw [hwe] at this
      exact lt_of_le_of_ne this (Ne.symm hne2)
    have hnil : (skinVertexPairs groupRemap elements).map Prod.snd ≠ [] := by
      simpa using hne
    have := List.sum_pos _ hpos hnil
    rw [skinVertexTotalWeight] at hT
    exact absurd hT (by linarith)

theorem C4_skin_weights_witness :
    (∀ e ∈ [VertexGroupElement.mk 0 1, VertexGroupElement.mk 0 3,
        VertexGroupElement.mk 1 5], 0 ≤ e.weight) ∧
    ((∀ p ∈ skinVertexPairs [0, -1]
          [VertexGroupElement.mk 0 1, VertexGroupElement.mk 0 3,
           VertexGroupElement.mk 1 5],
        0 ≤ p.1 ∧ p.2 ≠ 0 ∧
        ∃ e ∈ [VertexGroupElement.mk 0 1, VertexGroupElement.mk 0 3,
            VertexGroupElement.mk 1 5],
          List.getD [0, -1] e.group (-1) = p.1 ∧ e.weight = p.2) ∧
     (skinVertexTotalWeight [0, -1]
          [VertexGroupElement.mk 0 1, VertexGroupElement.mk 0 3,
           VertexGroupElement.mk 1 5] ≠ 0 →
        |((skinVertexNormalized [0, -1]
            [VertexGroupElement.mk 0 1, VertexGroupElement.mk 0 3,
             VertexGroupElement.mk 1 5]).map Prod.snd).sum - 1| ≤ EPSILON) ∧
     (skinVertexTotalWeight [0, -1]
          [VertexGroupElement.mk 0 1, VertexGroupElement.mk 0 3,
           VertexGroupElement.mk 1 5] = 0 →
        skinVertexNormalized [0, -1]
          [VertexGroupElement.mk 0 1, VertexGroupElement.mk 0 3,
           VertexGroupElement.mk 1 5] = [])) :=
  ⟨by decide, C4_skin_weights [0, -1] _ (by decide)⟩

/-!
## C10 — node-sampled vs bone-sampled track shapes
-/

theorem intRange_length (a b : ℤ) : (intRange a b).length = (b - a).toNat := by
  rw [intRange, List.length_map, List.length_range]

theorem mem_intRange {a b i : ℤ} (h : i ∈ intRange a b) : a ≤ i ∧ i < b := by
  rw [intRange, List.mem_map] at h
  obtain ⟨k, hk, rfl⟩ := h
  rw [List.mem_range] at hk
  omega

theorem countP_flatMap_two {α : Type _} (l : List α) (f g : α → WEvent)
    (p : WEvent → Bool) :
    (l.flatMap fun i => [f i, g i]).countP p =
      l.countP (fun i => p (f i)) + l.countP (fun i => p (g i)) := by
  induction l with
  | nil => simp
  | cons a t ih =>
      simp only [List.flatMap_cons, List.countP_append, List.countP_cons, ih]
      by_cases h1 : p (f a) <;> by_cases h2 : p (g a) <;>
        simp [h1, h2] <;> omega

theorem filter_flatMap_two_eq_nil {α : Type _} (l : List α) (f g : α → WEvent)
    (p : WEvent → Bool) (hf : ∀ i, p (f i) = false) (hg : ∀ i, p (g i) = false) :
    (l.flatMap fun i => [f i, g i]).filter p = [] := by
  rw [List.filter_eq_nil_iff]
  intro e he
  rw [List.mem_flatMap] at he
  obtain ⟨i, _, hi⟩ := he
  simp only [List.mem_cons, List.mem_singleton] at hi
  rcases hi with rfl | rfl | h
  · simp [hf]
  · simp [hg]
  · cases h

theorem filter_map_const_eq_nil {α : Type _} (l : List α) (e : WEvent)
    (p : WEvent → Bool) (he : p e = false) :
    (l.map fun _ => e).filter p = [] := by
  rw [List.filter_eq_nil_iff]
  intro x hx
  rw [List.mem_map] at hx
  obtain ⟨_, _, rfl⟩ := hx
  simp [he]

theorem countP_map_const {α : Type _} (l : List α) (e : WEvent) (p : WEvent → Bool) :
    (l.map fun _ => e).countP p = if p e then l.length else 0 := by
  induction l with
  | nil => simp
  | cons a t ih =>
      rw [List.map_cons, List.countP_cons, ih]
      by_cases h : p e <;> simp [h]

/-- C10: when node-level sampled animation is emitted and
`endFrame > beginFrame`, the node path's Time block holds exactly one
numeric key value (`endFrame * frameTime`), written after
`endFrame - beginFrame` bare `", "` separators, while its Value block holds
`endFrame - beginFrame + 1` baked matrices — so the time-value and
matrix counts never agree; the bone-sampled path instead writes one time
value per frame, matching its matrix count. -/
theorem C10_sampled_track_shape (matrixLocal boneMatrix : ℤ → Matrix4)
    (parentMatrix : Option (ℤ → Matrix4))
    (currentFrame beginFrame endFrame : ℤ) (frameTime : ℚ)
    (hlt : beginFrame < endFrame)
    (hdiff : ∃ i ∈ intRange beginFrame endFrame,
        matricesDifferent (matrixLocal currentFrame) (matrixLocal i) = true)
    (hdiffB : ∃ i ∈ intRange beginFrame endFrame,
        matricesDifferent (boneMatrix currentFrame) (boneMatrix i) = true) :
    (exportNodeSampledAnimation matrixLocal currentFrame beginFrame endFrame
        frameTime).filter (·.isFlt) = [WEvent.flt ((endFrame : ℚ) * frameTime)] ∧
    (exportNodeSampledAnimation matrixLocal currentFrame beginFrame endFrame
        frameTime).countP (·.isCommaRaw) = (endFrame - beginFrame).toNat ∧
    (exportNodeSampledAnimation matrixLocal currentFrame beginFrame endFrame
        frameTime).countP (·.isMat) = (endFrame - beginFrame).toNat + 1 ∧
    (exportNodeSampledAnimation matrixLocal currentFrame beginFrame endFrame
        frameTime).countP (·.isFlt) ≠
      (exportNodeSampledAnimation matrixLocal currentFrame beginFrame endFrame
        frameTime).countP (·.isMat) ∧
    (exportBoneSampledAnimation boneMatrix parentMatrix currentFrame beginFrame
        endFrame frameTime).countP (·.isFlt) = (endFrame - beginFrame).toNat + 1 ∧
    (exportBoneSampledAnimation boneMatrix parentMatrix currentFrame beginFrame
        endFrame frameTime).countP (·.isMat) = (endFrame - beginFrame).toNat + 1 := by
  have hflag : ((intRange beginFrame endFrame).any fun i =>
      matricesDifferent (matrixLocal currentFrame) (matrixLocal i)) = true := by
    rw [List.any_eq_true]
    obtain ⟨i, hi, hd⟩ := hdiff
    exact ⟨i, hi, hd⟩
  have hflagB : ((intRange beginFrame endFrame).any fun i =>
      matricesDifferent (boneMatrix currentFrame) (boneMatrix i)) = true := by
    rw [List.any_eq_true]
    obtain ⟨i, hi, hd⟩ := hdiffB
    exact ⟨i, hi, hd⟩
  have hn1 : 1 ≤ (endFrame - beginFrame).toNat := by omega
  have hfltN : (exportNodeSampledAnimation matrixLocal currentFrame beginFrame
      endFrame frameTime).countP (·.isFlt) = 1 := by
    simp only [exportNodeSampledAnimation, hflag, if_true, List.countP_append,
      List.countP_cons, countP_flatMap_two, countP_map_const, List.countP_true,
      List.countP_false]
    simp only [WEvent.isFlt]
    simp [intRange_length]
  have hmatN : (exportNodeSampledAnimation matrixLocal currentFrame beginFrame
      endFrame frameTime).countP (·.isMat) = (endFrame - beginFrame).toNat + 1 := by
    simp only [exportNodeSampledAnimation, hflag, if_true, List.countP_append,
      List.countP_cons, countP_flatMap_two, countP_map_const, List.countP_true,
      List.countP_false]
    simp only [WEvent.isMat]
    simp [intRange_length]
  refine ⟨?_, ?_, hmatN, ?_, ?_, ?_⟩
  · simp only [exportNodeSampledAnimation, hflag, if_true,
      List.filter_append, List.filter_cons, List.filter_nil]
    rw [filter_map_const_eq_nil _ _ _ rfl,
      filter_flatMap_two_eq_nil _ _ _ _ (fun i => rfl) (fun i => rfl)]
    simp [WEvent.isFlt]
  · simp only [exportNodeSampledAnimation, hflag, if_true, List.countP_append,
      List.countP_cons, countP_flatMap_two, countP_map_const, List.countP_true,
      List.countP_false]
    simp only [WEvent.isCommaRaw]
    simp [intRange_length]
  · rw [hfltN, hmatN]
    omega
  · simp only [exportBoneSampledAnimation, hflagB, if_true, List.countP_append,
      List.countP_cons, countP_flatMap_two, countP_map_const, List.countP_true,
      List.countP_false]
    simp only [WEvent.isFlt]
    simp [intRange_length]
  · simp only [exportBoneSampledAnimation, hflagB, if_true, List.countP_append,
      List.countP_cons, countP_flatMap_two, countP_map_const, List.countP_true,
      List.countP_false]
    simp only [WEvent.isMat]
    simp [intRange_length]

/-- A frame-indexed matrix whose 16 entries all equal the frame number. -/
def c10Matrix (i : ℤ) : Matrix4 := fun _ _ => (i : ℚ)

theorem c10Matrix_different : matricesDifferent (c10Matrix 0) (c10Matrix 1) = true := by
  rw [matricesDifferent, List.any_eq_true]
  refine ⟨0, by decide, ?_⟩
  rw [List.any_eq_true]
  refine ⟨0, by decide, ?_⟩
  rw [decide_eq_true_eq]
  show EPSILON < |c10Matrix 0 0 0 - c10Matrix 1 0 0|
  have : c10Matrix 0 0 0 - c10Matrix 1 0 0 = -1 := by
    norm_num [c10Matrix]
  rw [this, abs_neg, abs_one]
  norm_num [EPSILON]

theorem C10_sampled_track_shape_witness :
    ((0 : ℤ) < 2 ∧
     (∃ i ∈ intRange 0 2, matricesDifferent (c10Matrix 0) (c10Matrix i) = true)) ∧
    ((exportNodeSampledAnimation c10Matrix 0 0 2 1).filter (·.isFlt) =
        [WEvent.flt (((2 : ℤ) : ℚ) * 1)] ∧
     (exportNodeSampledAnimation c10Matrix 0 0 2 1).countP (·.isCommaRaw) =
        ((2 : ℤ) - 0).toNat ∧
     (exportNodeSampledAnimation c10Matrix 0 0 2 1).countP (·.isMat) =
        ((2 : ℤ) - 0).toNat + 1 ∧
     (exportNodeSampledAnimation c10Matrix 0 0 2 1).countP (·.isFlt) ≠
        (exportNodeSampledAnimation c10Matrix 0 0 2 1).countP (·.isMat) ∧
     (exportBoneSampledAnimation c10Matrix none 0 0 2 1).countP (·.isFlt) =
        ((2 : ℤ) - 0).toNat + 1 ∧
     (exportBoneSampledAnimation c10Matrix none 0 0 2 1).countP (·.isMat) =
        ((2 : ℤ) - 0).toNat + 1) :=
  have hd : ∃ i ∈ intRange 0 2, matricesDifferent (c10Matrix 0) (c10Matrix i) = true :=
    ⟨1, by decide, c10Matrix_different⟩
  ⟨⟨by decide, hd⟩,
   C10_sampled_track_shape c10Matrix c10Matrix none 0 0 2 1 (by decide) hd hd⟩

/-!
## C3 — entering the Sampled state and the static fallback
-/

theorem matricesDifferent_self (m : Matrix4) : matricesDifferent m m = false := by
  rw [matricesDifferent, List.any_eq_false]
  intro i _
  rw [Bool.not_eq_true, List.any_eq_false]
  intro j _
  rw [Bool.not_eq_true, decide_eq_false_iff_not, not_lt]
  simp only [sub_self, abs_zero]
  norm_num [EPSILON]

/-- The f-curve scan sets `sampledAnimation` whenever some curve classifies
as `ANIMATION_SAMPLED`. -/
theorem scanCurves_sampled_of_mem (l : List FCurve) :
    ∀ st : CurveScan, (∃ fc ∈ l, classifyAnimationCurve fc = ANIMATION_SAMPLED) →
      (scanCurves l st).1 = true := by
  induction l with
  | nil =>
      rintro st ⟨fc, hmem, _⟩
      cases hmem
  | cons fcurve rest ih =>
      rintro st ⟨fc, hmem, hcls⟩
      rw [List.mem_cons] at hmem
      simp only [scanCurves]
      rcases hmem with rfl | hmem
      · rw [if_neg (by simpa using hcls)]
      · split_ifs <;> first | rfl | exact ih _ ⟨fc, hmem, hcls⟩

/-- C3: the transform emitter enters the Sampled state whenever the rotation
mode is quaternion or axis-angle, the force-sampled option is set, or some
driving f-curve classifies as Sampled; and in that state, if no baked matrix
over `[beginFrame, endFrame]` differs from the node's rest matrix (the
`matrix_local` at the current frame) by more than `EPSILON` in any element,
the emitted output is exactly one `Transform` block holding the single
static matrix — one `mat` event, no `Animation` block. -/
theorem C3_sampled_static (sampleAnimationFlag : Bool) (node : NodeTransformInput)
    (currentFrame beginFrame endFrame : ℤ) (frameTime : ℚ)
    (hcond : node.rotation_mode = "QUATERNION" ∨ node.rotation_mode = "AXIS_ANGLE"
      ∨ sampleAnimationFlag = true
      ∨ (∃ ad act, node.animation_data = some ad ∧ ad.action = some act ∧
          ∃ fc ∈ act.fcurves, classifyAnimationCurve fc = ANIMATION_SAMPLED))
    (hnodiff : ∀ i, beginFrame ≤ i → i ≤ endFrame →
      matricesDifferent (node.matrix_local currentFrame) (node.matrix_local i) = false) :
    (nodeSampledDecision sampleAnimationFlag node).1 = true ∧
    exportNodeTransformUpper sampleAnimationFlag node currentFrame beginFrame
        endFrame frameTime =
      some [WEvent.indent "Transform" 0 false, WEvent.raw " %transform",
            WEvent.indent "\x7b\n" 0 true, WEvent.indent "float[16]\n" 0 false,
            WEvent.indent "\x7b\n" 0 false,
            WEvent.mat (node.matrix_local currentFrame),
            WEvent.indent "\x7d\n" 0 false, WEvent.indent "\x7d\n" 0 false] ∧
    ([WEvent.indent "Transform" 0 false, WEvent.raw " %transform",
      WEvent.indent "\x7b\n" 0 true, WEvent.indent "float[16]\n" 0 false,
      WEvent.indent "\x7b\n" 0 false,
      WEvent.mat (node.matrix_local currentFrame),
      WEvent.indent "\x7d\n" 0 false, WEvent.indent "\x7d\n" 0 false].countP (·.isMat) = 1 ∧
     [WEvent.indent "Transform" 0 false, WEvent.raw " %transform",
      WEvent.indent "\x7b\n" 0 true, WEvent.indent "float[16]\n" 0 false,
      WEvent.indent "\x7b\n" 0 false,
      WEvent.mat (node.matrix_local currentFrame),
      WEvent.indent "\x7d\n" 0 false,
      WEvent.indent "\x7d\n" 0 false].countP (·.isAnimationHeader) = 0) := by
  have hdec : (nodeSampledDecision sampleAnimationFlag node).1 = true := by
    rcases hcond with h | h | h | ⟨ad, act, had, hact, fc, hfc, hcls⟩
    · simp [nodeSampledDecision, h]
    · simp [nodeSampledDecision, h]
    · simp [nodeSampledDecision, h]
    · rw [nodeSampledDecision]
      cases hs0 : (sampleAnimationFlag || node.rotation_mode = "QUATERNION"
          || node.rotation_mode = "AXIS_ANGLE")
      · simp only [Bool.not_false, had, hact, if_true]
        exact scanCurves_sampled_of_mem act.fcurves CurveScan.init ⟨fc, hfc, hcls⟩
      · simp
  have hanim : ((intRange beginFrame endFrame).any fun i =>
      matricesDifferent (node.matrix_local currentFrame) (node.matrix_local i)) = false := by
    rw [List.any_eq_false]
    intro i hi
    obtain ⟨h1, h2⟩ := mem_intRange hi
    simp [hnodiff i h1 (le_of_lt h2)]
  have hpair : nodeSampledDecision sampleAnimationFlag node =
      (true, (nodeSampledDecision sampleAnimationFlag node).2) := by
    rw [← hdec]
  refine ⟨hdec, ?_, by rfl, by rfl⟩
  rw [exportNodeTransformUpper, hpair]
  simp only [Bool.true_or, if_true]
  rw [exportNodeSampledAnimation]
  rw [hanim]
  simp

/-- The all-zero constant matrix. -/
def constMatrix : Matrix4 := fun _ _ => 0

/-- A quaternion-mode node with no animation data and a constant local
matrix. -/
def c3Node : NodeTransformInput :=
  { rotation_mode := "QUATERNION", animation_data := none
    matrix_local := fun _ => constMatrix }

theorem C3_sampled_static_witness :
    (c3Node.rotation_mode = "QUATERNION" ∨ c3Node.rotation_mode = "AXIS_ANGLE"
      ∨ false = true
      ∨ (∃ ad act, c3Node.animation_data = some ad ∧ ad.action = some act ∧
          ∃ fc ∈ act.fcurves, classifyAnimationCurve fc = ANIMATION_SAMPLED)) ∧
    (∀ i : ℤ, (0 : ℤ) ≤ i → i ≤ (2 : ℤ) →
      matricesDifferent (c3Node.matrix_local 0) (c3Node.matrix_local i) = false) ∧
    ((nodeSampledDecision false c3Node).1 = true ∧
     exportNodeTransformUpper false c3Node 0 0 2 1 =
       some [WEvent.indent "Transform" 0 false, WEvent.raw " %transform",
             WEvent.indent "\x7b\n" 0 true, WEvent.indent "float[16]\n" 0 false,
             WEvent.indent "\x7b\n" 0 false,
             WEvent.mat (c3Node.matrix_local 0),
             WEvent.indent "\x7d\n" 0 false, WEvent.indent "\x7d\n" 0 false]) :=
  have hnd : ∀ i : ℤ, (0 : ℤ) ≤ i → i ≤ (2 : ℤ) →
      matricesDifferent (c3Node.matrix_local 0) (c3Node.matrix_local i) = false :=
    fun _ _ _ => matricesDifferent_self constMatrix
  ⟨Or.inl rfl, hnd,
   (C3_sampled_static false c3Node 0 0 2 1 (Or.inl rfl) hnd).1,
   ((C3_sampled_static false c3Node 0 0 2 1 (Or.inl rfl) hnd).2).1⟩

/-!
## The `unify_vertices` loop invariant (C1, C7)
-/

/-- `find_export_vertex` either misses (`-1`) or returns a bucket member whose
vertex is structurally equal to the probe. -/
theorem findExportVertex_spec (bucket : List ℕ) (arr : List ExportVertex)
    (v : ExportVertex) :
    findExportVertex bucket arr v = -1 ∨
    ∃ idx ∈ bucket, findExportVertex bucket arr v = (idx : ℤ) ∧
      vertexEq (arr.getD idx default) v = true := by
  induction bucket with
  | nil => exact Or.inl rfl
  | cons index rest ih =>
      rw [findExportVertex]
      by_cases h : vertexEq (arr.getD index default) v = true
      · exact Or.inr ⟨index, by simp, by rw [if_pos h], h⟩
      · rw [if_neg h]
        rcases ih with h1 | ⟨idx, hmem, heq, hv⟩
        · exact Or.inl h1
        · exact Or.inr ⟨idx, by simp [hmem], heq, hv⟩

/-- Invariant of the `unify_vertices` loop after `k` corners are processed:
the index table has one entry per processed corner, the unified array grew by
at most one entry per corner, every processed corner's index-table entry
points at a unified vertex structurally equal to the corner's vertex, and
every bucket member is a processed corner index. -/
def UnifyInv (evs : List ExportVertex) (st : UnifyState) (k : ℕ) : Prop :=
  st.indexTable.length = k ∧
  st.unifiedVertexArray.length ≤ k ∧
  (∀ j, j < k → ∃ u x y, st.indexTable[j]? = some u ∧
      st.unifiedVertexArray[u]? = some x ∧ evs[j]? = some y ∧ vertexEq x y = true) ∧
  (∀ (b : ℕ) (l : List ℕ), st.hashTable[b]? = some l → ∀ idx ∈ l, idx < k)

theorem unifyStep_inv {evs : List ExportVertex} {bc : ℕ} {st : UnifyState}
    {k : ℕ} {ev : ExportVertex} (hk : evs[k]? = some ev)
    (h : UnifyInv evs st k) : UnifyInv evs (unifyStep evs bc st k ev) (k + 1) := by
  obtain ⟨hlen, hua, hcorr, hbuck⟩ := h
  have hkN : k < evs.length := (List.getElem?_eq_some.mp hk).1
  set bucket := (Int.land ev.hash ((bc : ℤ) - 1)).toNat with hbdef
  set bl := st.hashTable.getD bucket [] with hbldef
  rcases findExportVertex_spec bl evs ev with hf | ⟨idx, hmem, hf, heq⟩
  · -- miss: a fresh unified vertex is appended
    have hstep : unifyStep evs bc st k ev =
        { hashTable := st.hashTable.set bucket (bl ++ [k])
          unifiedVertexArray := st.unifiedVertexArray ++ [ev]
          indexTable := st.indexTable ++ [st.unifiedVertexArray.length] } := by
      rw [unifyStep, ← hbdef, ← hbldef, hf]
      norm_num
    rw [hstep]
    refine ⟨by simp [hlen], by simp; omega, ?_, ?_⟩
    · intro j hj
      rcases Nat.lt_or_ge j k with hjk | hjk
      · obtain ⟨u, x, y, h1, h2, h3, h4⟩ := hcorr j hjk
        have hju : j < st.indexTable.length := by omega
        have hu : u < st.unifiedVertexArray.length := (List.getElem?_eq_some.mp h2).1
        refine ⟨u, x, y, ?_, ?_, h3, h4⟩
        · rw [List.getElem?_append, if_pos hju]
          exact h1
        · rw [List.getElem?_append, if_pos hu]
          exact h2
      · have hjeq : j = k := by omega
        subst hjeq
        refine ⟨st.unifiedVertexArray.length, ev, ev, ?_, ?_, hk, vertexEq_refl ev⟩
        · rw [← hlen, List.getElem?_concat_length]
        · rw [List.getElem?_concat_length]
    · intro b l hbl idx' hidx'
      rw [List.getElem?_set] at hbl
      by_cases hb : bucket = b
      · rw [if_pos hb] at hbl
        by_cases hlt : bucket < st.hashTable.length
        · rw [if_pos hlt] at hbl
          cases hbl
          rcases List.mem_append.mp hidx' with hold | hnew
          · have hblsome : st.hashTable[bucket]? = some bl := by
              rw [hbldef, List.getD_eq_getElem?_getD, List.getElem?_eq_getElem hlt]
              rfl
            exact Nat.lt_succ_of_lt (hbuck bucket bl hblsome idx' hold)
          · rw [List.mem_singleton] at hnew
            omega
        · rw [if_neg hlt] at hbl
          cases hbl
      · rw [if_neg hb] at hbl
        exact Nat.lt_succ_of_lt (hbuck b l hbl idx' hidx')
  · -- hit: the earlier corner's unified index is reused
    have hblt : bucket < st.hashTable.length := by
      by_contra hge
      have : bl = [] := by
        rw [hbldef, List.getD_eq_getElem?_getD]
        rw [List.getElem?_eq_none (by omega)]
        rfl
      rw [this] at hmem
      cases hmem
    have hblsome : st.hashTable[bucket]? = some bl := by
      rw [hbldef, List.getD_eq_getElem?_getD, List.getElem?_eq_getElem hblt]
      rfl
    have hidxk : idx < k := hbuck bucket bl hblsome idx hmem
    obtain ⟨u, x, y, h1, h2, h3, h4⟩ := hcorr idx hidxk
    have hyd : evs.getD idx default = y := by
      rw [List.getD_eq_getElem?_getD, h3]
      rfl
    have hyev : vertexEq y ev = true := by
      rw [← hyd]
      exact heq
    have hxev : vertexEq x ev = true := vertexEq_trans h4 hyev
    have hgetu : st.indexTable.getD (Int.toNat ((idx : ℤ))) 0 = u := by
      rw [Int.toNat_natCast, List.getD_eq_getElem?_getD, h1]
      rfl
    have hstep : unifyStep evs bc st k ev =
        { st with indexTable := st.indexTable ++ [u] } := by
      rw [unifyStep, ← hbdef, ← hbldef, hf]
      rw [if_neg (by omega)]
      rw [hgetu]
    rw [hstep]
    refine ⟨by simp [hlen], by simp; omega, ?_, ?_⟩
    · intro j hj
      rcases Nat.lt_or_ge j k with hjk | hjk
      · obtain ⟨u', x', y', g1, g2, g3, g4⟩ := hcorr j hjk
        have hju : j < st.indexTable.length := by omega
        refine ⟨u', x', y', ?_, g2, g3, g4⟩
        rw [List.getElem?_append, if_pos hju]
        exact g1
      · have hjeq : j = k := by omega
        subst hjeq
        refine ⟨u, x, ev, ?_, h2, hk, hxev⟩
        rw [← hlen, List.getElem?_concat_length]
    · intro b l hbl idx' hidx'
      exact Nat.lt_succ_of_lt (hbuck b l hbl idx' hidx')

theorem unifyLoop_inv {evs : List ExportVertex} {bc : ℕ} :
    ∀ (rest : List ExportVertex) (st : UnifyState) (k : ℕ),
      UnifyInv evs st k → k ≤ evs.length → evs.drop k = rest →
      UnifyInv evs (unifyLoop evs bc st rest) evs.length := by
  intro rest
  induction rest with
  | nil =>
      intro st k h hk hdrop
      have : evs.length ≤ k := by
        by_contra hlt
        have : evs.drop k ≠ [] := by
          rw [← List.length_pos_iff_ne_nil, List.length_drop]
          omega
        exact this hdrop
      have hkeq : k = evs.length := by omega
      rw [unifyLoop]
      rw [hkeq] at h
      exact h
  | cons ev tail ih =>
      intro st k h hk hdrop
      have hkget : evs[k]? = some ev := by
        have := List.getElem?_drop evs k 0
        rw [hdrop] at this
        simpa using this.symm
      have hkN : k < evs.length := (List.getElem?_eq_some.mp hkget).1
      have hstep := @unifyStep_inv evs bc st k ev hkget h
      have hdrop' : evs.drop (k + 1) = tail := by
        have h1 : List.drop 1 (evs.drop k) = evs.drop (k + 1) := by
          rw [List.drop_drop]
        rw [hdrop] at h1
        simpa using h1.symm
      rw [unifyLoop]
      have hidx : st.indexTable.length = k := h.1
      rw [hidx]
      have hlen' : (unifyStep evs bc st k ev).indexTable.length = k + 1 := hstep.1
      have := ih (unifyStep evs bc st k ev) (k + 1) hstep (by omega) hdrop'
      exact this

/-- The corner-level specification of `unify_vertices`: the index table has
one entry per corner, the unified array is no longer than the input, and
every corner's table entry points at a structurally equal unified vertex. -/
theorem unifyVertices_spec (evs : List ExportVertex) :
    (unifyVertices evs).2.length = evs.length ∧
    (unifyVertices evs).1.length ≤ evs.length ∧
    (∀ j, j < evs.length → ∃ u x y, (unifyVertices evs).2[j]? = some u ∧
        (unifyVertices evs).1[u]? = some x ∧ evs[j]? = some y ∧
        vertexEq x y = true) := by
  have hinit : UnifyInv evs
      { hashTable := List.replicate (bucketCountOf evs.length) []
        unifiedVertexArray := [], indexTable := [] } 0 := by
    refine ⟨rfl, by simp, by omega, ?_⟩
    intro b l hbl idx hidx
    have : l = [] := by
      rcases List.getElem?_eq_some.mp hbl with ⟨hb, hbe⟩
      rw [List.getElem_replicate] at hbe
      exact hbe.symm
    rw [this] at hidx
    cases hidx
  have := @unifyLoop_inv evs (bucketCountOf evs.length) evs
    { hashTable := List.replicate (bucketCountOf evs.length) []
      unifiedVertexArray := [], indexTable := [] } 0 hinit (by omega) (by simp)
  exact ⟨this.1, this.2.1, this.2.2.1⟩

/-!
## C1 — unify round-trip
-/

/-- C1: for a triangulated input (`3*T` deindexed corners), rebuilding each
triangle `t` from `unifiedVertexArray[indexTable[3t+c]]` reproduces the
original corner record exactly — equal under the exporter's own
`ExportVertex.__eq__` and componentwise in all five scalar-field sequences —
and the unified array is no longer than the corner list. -/
theorem C1_unify_roundtrip (evs : List ExportVertex) (T : ℕ)
    (hT : evs.length = 3 * T) :
    (unifyVertices evs).2.length = evs.length ∧
    (unifyVertices evs).1.length ≤ evs.length ∧
    (∀ t, t < T → ∀ c, c < 3 →
      ∃ u x y, (unifyVertices evs).2[3 * t + c]? = some u ∧
        (unifyVertices evs).1[u]? = some x ∧ evs[3 * t + c]? = some y ∧
        vertexEq x y = true ∧
        x.position = y.position ∧ x.normal = y.normal ∧ x.color = y.color ∧
        x.texcoord0 = y.texcoord0 ∧ x.texcoord1 = y.texcoord1) := by
  obtain ⟨h1, h2, h3⟩ := unifyVertices_spec evs
  refine ⟨h1, h2, ?_⟩
  intro t ht c hc
  have hidx : 3 * t + c < evs.length := by omega
  obtain ⟨u, x, y, g1, g2, g3, g4⟩ := h3 _ hidx
  have hfields := vertexEq_iff.mp g4
  exact ⟨u, x, y, g1, g2, g3, g4, hfields.2.1, hfields.2.2.1, hfields.2.2.2.1,
    hfields.2.2.2.2.1, hfields.2.2.2.2.2⟩

/-- A corner vertex for the round-trip witness. -/
def c1Vertex : ExportVertex :=
  { hash := 5, vertexIndex := 0, faceIndex := 0, position := [0, 0, 0]
    normal := [0, 0, 1], color := [1, 1, 1], texcoord0 := [0, 0]
    texcoord1 := [0, 0] }

theorem C1_unify_roundtrip_witness :
    ([c1Vertex, c1Vertex, c1Vertex].length = 3 * 1) ∧
    ((unifyVertices [c1Vertex, c1Vertex, c1Vertex]).2.length =
        [c1Vertex, c1Vertex, c1Vertex].length ∧
     (unifyVertices [c1Vertex, c1Vertex, c1Vertex]).1.length ≤
        [c1Vertex, c1Vertex, c1Vertex].length ∧
     (∀ t, t < 1 → ∀ c, c < 3 →
       ∃ u x y, (unifyVertices [c1Vertex, c1Vertex, c1Vertex]).2[3 * t + c]? = some u ∧
         (unifyVertices [c1Vertex, c1Vertex, c1Vertex]).1[u]? = some x ∧
         [c1Vertex, c1Vertex, c1Vertex][3 * t + c]? = some y ∧
         vertexEq x y = true ∧
         x.position = y.position ∧ x.normal = y.normal ∧ x.color = y.color ∧
         x.texcoord0 = y.texcoord0 ∧ x.texcoord1 = y.texcoord1)) :=
  ⟨rfl, C1_unify_roundtrip [c1Vertex, c1Vertex, c1Vertex] 1 rfl⟩

/-!
## C7 — exact structural vertex equality, no epsilon merging
-/

/-- `ExportVertex.Hash` depends only on the five scalar-field sequences. -/
theorem vertexHashQ_congr {a b : ExportVertex}
    (hp : a.position = b.position) (hn : a.normal = b.normal)
    (hc : a.color = b.color) (h0 : a.texcoord0 = b.texcoord0)
    (h1 : a.texcoord1 = b.texcoord1) : vertexHashQ a = vertexHashQ b := by
  simp only [vertexHashQ, hp, hn, hc, h0, h1]

/-- C7: on vertices whose stored hash was computed by `Hash` (as
`deindex_mesh` guarantees before `unify_vertices` runs), the exporter's
equality is exact structural equality of the scalar-field sequences — no
epsilon — and `unify_vertices` never assigns one unified index to two
corners that differ anywhere (by as little as one least-significant bit) in
those fields. -/
theorem C7_exact_equality (a b : ExportVertex)
    (ha : a.hash = vertexHashQ a) (hb : b.hash = vertexHashQ b) :
    (vertexEq a b = true ↔
      (a.position = b.position ∧ a.normal = b.normal ∧ a.color = b.color ∧
       a.texcoord0 = b.texcoord0 ∧ a.texcoord1 = b.texcoord1)) ∧
    (∀ (evs : List ExportVertex) (i j : ℕ),
      evs[i]? = some a → evs[j]? = some b →
      ¬(a.position = b.position ∧ a.normal = b.normal ∧ a.color = b.color ∧
        a.texcoord0 = b.texcoord0 ∧ a.texcoord1 = b.texcoord1) →
      (unifyVertices evs).2[i]? ≠ (unifyVertices evs).2[j]?) := by
  constructor
  · constructor
    · intro h
      have := vertexEq_iff.mp h
      exact ⟨this.2.1, this.2.2.1, this.2.2.2.1, this.2.2.2.2.1, this.2.2.2.2.2⟩
    · rintro ⟨hp, hn, hc, h0, h1⟩
      rw [vertexEq_iff]
      refine ⟨?_, hp, hn, hc, h0, h1⟩
      rw [ha, hb]
      exact vertexHashQ_congr hp hn hc h0 h1
  · intro evs i j hi hj hneq heqtab
    obtain ⟨_, _, h3⟩ := unifyVertices_spec evs
    have hiN : i < evs.length := (List.getElem?_eq_some.mp hi).1
    have hjN : j < evs.length := (List.getElem?_eq_some.mp hj).1
    obtain ⟨ui, xi, yi, gi1, gi2, gi3, gi4⟩ := h3 i hiN
    obtain ⟨uj, xj, yj, gj1, gj2, gj3, gj4⟩ := h3 j hjN
    have hya : yi = a := by rw [hi] at gi3; exact (Option.some.inj gi3).symm
    have hyb : yj = b := by rw [hj] at gj3; exact (Option.some.inj gj3).symm
    rw [gi1, gj1] at heqtab
    have huij : ui = uj := Option.some.inj heqtab
    rw [huij, gj2] at gi2
    have hxij : xi = xj := (Option.some.inj gi2).symm
    rw [hya] at gi4
    rw [hyb] at gj4
    rw [hxij] at gi4
    have hab : vertexEq a b = true := vertexEq_trans (vertexEq_symm gi4) gj4
    have := vertexEq_iff.mp hab
    exact hneq ⟨this.2.1, this.2.2.1, this.2.2.2.1, this.2.2.2.2.1, this.2.2.2.2.2⟩

/-- A base record (hash still unset) for the C7 witness. -/
def c7Base : ExportVertex :=
  { hash := 0, vertexIndex := 0, faceIndex := 0, position := [0, 0, 0]
    normal := [0, 0, 1], color := [1, 1, 1], texcoord0 := [0, 0]
    texcoord1 := [0, 0] }

/-- The hashed witness vertex. -/
def c7VertexA : ExportVertex := { c7Base with hash := vertexHashQ c7Base }

/-- A second base differing from `c7Base` in one position coordinate. -/
def c7BaseB : ExportVertex := { c7Base with position := [1, 0, 0] }

/-- The hashed second witness vertex. -/
def c7VertexB : ExportVertex := { c7BaseB with hash := vertexHashQ c7BaseB }

theorem C7_exact_equality_witness :
    (c7VertexA.hash = vertexHashQ c7VertexA ∧
     c7VertexB.hash = vertexHashQ c7VertexB) ∧
    ((vertexEq c7VertexA c7VertexB = true ↔
      (c7VertexA.position = c7VertexB.position ∧
       c7VertexA.normal = c7VertexB.normal ∧
       c7VertexA.color = c7VertexB.color ∧
       c7VertexA.texcoord0 = c7VertexB.texcoord0 ∧
       c7VertexA.texcoord1 = c7VertexB.texcoord1)) ∧
     (∀ (evs : List ExportVertex) (i j : ℕ),
       evs[i]? = some c7VertexA → evs[j]? = some c7VertexB →
       ¬(c7VertexA.position = c7VertexB.position ∧
         c7VertexA.normal = c7VertexB.normal ∧
         c7VertexA.color = c7VertexB.color ∧
         c7VertexA.texcoord0 = c7VertexB.texcoord0 ∧
         c7VertexA.texcoord1 = c7VertexB.texcoord1) →
       (unifyVertices evs).2[i]? ≠ (unifyVertices evs).2[j]?)) :=
  ⟨⟨rfl, rfl⟩, C7_exact_equality c7VertexA c7VertexB rfl rfl⟩

/-!
## C9 — vertex-color deindexing
-/

/-- The first loop of `deindex_mesh` succeeds on an in-range triangulated
mesh and appends three corner records per face, all with the default color
`[1,1,1]`. -/
theorem deindexBase_spec (meshVertices : List MeshVertex) :
    ∀ (faces : List LoopTri) (f0 : ℕ) (evs0 : List ExportVertex) (mats0 : List ℕ),
    (∀ tri ∈ faces, tri.vertices.length = 3 ∧
      ∀ k ∈ tri.vertices, k < meshVertices.length) →
    ∃ newEvs newMats,
      deindexBase meshVertices faces f0 evs0 mats0 = some (evs0 ++ newEvs, mats0 ++ newMats) ∧
      newEvs.length = 3 * faces.length ∧
      ∀ ev ∈ newEvs, ev.color = [1, 1, 1] := by
  intro faces
  induction faces with
  | nil =>
      intro f0 evs0 mats0 _
      exact ⟨[], [], by simp [deindexBase], by simp, by simp⟩
  | cons face rest ih =>
      intro f0 evs0 mats0 hv
      obtain ⟨hlen3, hin⟩ := hv face (by simp)
      obtain ⟨k1, k2, k3, hks⟩ := List.length_eq_three.mp hlen3
      have h1 : face.vertices[0]? = some k1 := by rw [hks]; rfl
      have h2 : face.vertices[1]? = some k2 := by rw [hks]; rfl
      have h3 : face.vertices[2]? = some k3 := by rw [hks]; rfl
      have hk1 : k1 < meshVertices.length := hin k1 (by rw [hks]; simp)
      have hk2 : k2 < meshVertices.length := hin k2 (by rw [hks]; simp)
      have hk3 : k3 < meshVertices.length := hin k3 (by rw [hks]; simp)
      obtain ⟨rest1, rest2, hrec, hreclen, hreccol⟩ :=
        ih (f0 + 1)
          (evs0 ++ [mkCornerVertex f0 face k1 meshVertices[k1],
                    mkCornerVertex f0 face k2 meshVertices[k2],
                    mkCornerVertex f0 face k3 meshVertices[k3]])
          (mats0 ++ [face.material_index])
          (fun tri htri => hv tri (by simp [htri]))
      refine ⟨[mkCornerVertex f0 face k1 meshVertices[k1],
               mkCornerVertex f0 face k2 meshVertices[k2],
               mkCornerVertex f0 face k3 meshVertices[k3]] ++ rest1,
              face.material_index :: rest2, ?_, ?_, ?_⟩
      · simp only [deindexBase, h1, h2, h3, Option.bind_eq_bind, Option.some_bind,
          List.getElem?_eq_getElem hk1, List.getElem?_eq_getElem hk2,
          List.getElem?_eq_getElem hk3]
        rw [hrec]
        simp
      · simp only [List.length_append, hreclen, List.length_cons]
        simp
        omega
      · intro ev hev
        rcases List.mem_append.mp hev with hmem | hmem
        · simp only [List.mem_cons, List.mem_singleton] at hmem
          rcases hmem with rfl | rfl | rfl | h
          · rfl
          · rfl
          · rfl
          · cases h
        · exact hreccol ev hmem

theorem setColorAt_spec {evs : List ExportVertex} {idx : ℕ} (h : idx < evs.length)
    (comp : ℕ) (val : ℚ) :
    setColorAt evs idx comp val =
      some (evs.set idx { evs.getD idx default with
        color := (evs.getD idx default).color.set comp val }) := by
  simp [setColorAt, List.getElem?_eq_getElem h, List.getD_eq_getElem?_getD]

/-- The vertex-color loop of `deindex_mesh`: on a triangulated mesh with
enough color records it succeeds, leaves positions before the cursor
untouched, and gives corner `c` of face `t` component `c` of color record
`f0 + t`. -/
theorem colorPass_spec (colorData : List ColorRec) :
    ∀ (faces : List LoopTri) (v0 f0 : ℕ) (evs : List ExportVertex),
    (∀ tri ∈ faces, tri.vertices.length = 3) →
    (∀ t, t < faces.length → ∃ cf, colorData[f0 + t]? = some cf ∧ 3 ≤ cf.color.length) →
    v0 + 3 * faces.length ≤ evs.length →
    ∃ evs', colorPass colorData faces v0 f0 evs = some evs' ∧
      evs'.length = evs.length ∧
      (∀ i, i < v0 → evs'[i]? = evs[i]?) ∧
      (∀ t, t < faces.length → ∀ c, c < 3 →
        evs'[v0 + 3 * t + c]? = (evs[v0 + 3 * t + c]?).map
          (fun orig => { orig with
            color := orig.color.set c ((colorData.getD (f0 + t) ⟨[]⟩).color.getD c 0) })) := by
  intro faces
  induction faces with
  | nil =>
      intro v0 f0 evs _ _ _
      exact ⟨evs, by rw [colorPass], rfl, fun _ _ => rfl, fun t ht => by simp at ht⟩
  | cons face rest ih =>
      intro v0 f0 evs h3 hdata hlen
      obtain ⟨cf, hcf, hcflen⟩ := hdata 0 (by simp)
      rw [Nat.add_zero] at hcf
      have hlenN : v0 + 3 * (rest.length + 1) ≤ evs.length := by
        simpa [Nat.mul_succ, Nat.mul_add] using hlen
      have hv0 : v0 < evs.length := by omega
      have hv1 : v0 + 1 < evs.length := by omega
      have hv2 : v0 + 2 < evs.length := by omega
      have he0 : cf.color[0]? = some (cf.color.getD 0 0) := by
        rw [List.getD_eq_getElem?_getD, List.getElem?_eq_getElem (by omega)]
        rfl
      have he1 : cf.color[1]? = some (cf.color.getD 1 0) := by
        rw [List.getD_eq_getElem?_getD, List.getElem?_eq_getElem (by omega)]
        rfl
      have he2 : cf.color[2]? = some (cf.color.getD 2 0) := by
        rw [List.getD_eq_getElem?_getD, List.getElem?_eq_getElem (by omega)]
        rfl
      set q0 := cf.color.getD 0 0 with hq0
      set q1 := cf.color.getD 1 0 with hq1
      set q2 := cf.color.getD 2 0 with hq2
      set evs1 := evs.set v0 { evs.getD v0 default with
        color := (evs.getD v0 default).color.set 0 q0 } with hevs1
      have hlen1 : evs1.length = evs.length := by simp [hevs1]
      set evs2 := evs1.set (v0 + 1) { evs1.getD (v0 + 1) default with
        color := (evs1.getD (v0 + 1) default).color.set 1 q1 } with hevs2
      have hlen2 : evs2.length = evs.length := by simp [hevs2, hlen1]
      set evs3 := evs2.set (v0 + 2) { evs2.getD (v0 + 2) default with
        color := (evs2.getD (v0 + 2) default).color.set 2 q2 } with hevs3
      have hlen3' : evs3.length = evs.length := by simp [hevs3, hlen2]
      have hs1 : setColorAt evs v0 0 q0 = some evs1 :=
        setColorAt_spec hv0 0 q0
      have hs2 : setColorAt evs1 (v0 + 1) 1 q1 = some evs2 :=
        setColorAt_spec (by omega) 1 q1
      have hs3 : setColorAt evs2 (v0 + 2) 2 q2 = some evs3 :=
        setColorAt_spec (by omega) 2 q2
      have h4 : ¬(face.vertices.length = 4) := by
        rw [h3 face (by simp)]
        omega
      obtain ⟨evs', hrun, hlen', hlow, hper⟩ :=
        ih (v0 + 3) (f0 + 1) evs3 (fun tri htri => h3 tri (by simp [htri]))
          (fun t ht => by
            obtain ⟨cf', hcf', hcl'⟩ := hdata (t + 1) (by simp; omega)
            rw [show f0 + (t + 1) = f0 + 1 + t by omega] at hcf'
            exact ⟨cf', hcf', hcl'⟩)
          (by omega)
      -- positions at or above the cursor pass through the three sets
      have hset_high : ∀ p, v0 + 3 ≤ p → evs3[p]? = evs[p]? := by
        intro p hp
        rw [hevs3, List.getElem?_set, if_neg (by omega), hevs2,
          List.getElem?_set, if_neg (by omega), hevs1,
          List.getElem?_set, if_neg (by omega)]
      have hset_low : ∀ p, p < v0 → evs3[p]? = evs[p]? := by
        intro p hp
        rw [hevs3, List.getElem?_set, if_neg (by omega), hevs2,
          List.getElem?_set, if_neg (by omega), hevs1,
          List.getElem?_set, if_neg (by omega)]
      refine ⟨evs', ?_, by rw [hlen', hlen3'], ?_, ?_⟩
      · simp only [colorPass, hcf, he0, he1, he2, Option.bind_eq_bind,
          Option.some_bind, hs1, hs2, hs3, if_neg h4]
        exact hrun
      · intro i hi
        rw [hlow i (by omega), hset_low i hi]
      · intro t ht c hc
        match t, ht with
        | 0, _ =>
            have hcfd : colorData.getD (f0 + 0) ⟨[]⟩ = cf := by
              rw [Nat.add_zero, List.getD_eq_getElem?_getD, hcf]
              rfl
            have hgetd : ∀ p (hp : p < evs.length),
                evs[p]? = some (evs.getD p default) := by
              intro p hp
              rw [List.getD_eq_getElem?_getD, List.getElem?_eq_getElem hp]
              rfl
            interval_cases c
            · have hp : evs'[v0 + 3 * 0 + 0]? = evs3[v0]? := by
                rw [show v0 + 3 * 0 + 0 = v0 by omega]
                exact hlow v0 (by omega)
              rw [hp, hevs3, List.getElem?_set, if_neg (by omega), hevs2,
                List.getElem?_set, if_neg (by omega), hevs1,
                List.getElem?_set, if_pos rfl, if_pos hv0]
              rw [show v0 + 3 * 0 + 0 = v0 by omega, hgetd v0 hv0, hcfd]
              rfl
            · have hp : evs'[v0 + 3 * 0 + 1]? = evs3[v0 + 1]? := by
                rw [show v0 + 3 * 0 + 1 = v0 + 1 by omega]
                exact hlow (v0 + 1) (by omega)
              have hq : evs1[v0 + 1]? = evs[v0 + 1]? := by
                rw [hevs1, List.getElem?_set, if_neg (by omega)]
              have hq' : evs1.getD (v0 + 1) default = evs.getD (v0 + 1) default := by
                rw [List.getD_eq_getElem?_getD, hq, List.getD_eq_getElem?_getD]
              rw [hp, hevs3, List.getElem?_set, if_neg (by omega), hevs2,
                List.getElem?_set, if_pos rfl, if_pos (by omega), hq']
              rw [show v0 + 3 * 0 + 1 = v0 + 1 by omega, hgetd (v0 + 1) hv1, hcfd]
              rfl
            · have hp : evs'[v0 + 3 * 0 + 2]? = evs3[v0 + 2]? := by
                rw [show v0 + 3 * 0 + 2 = v0 + 2 by omega]
                exact hlow (v0 + 2) (by omega)
              have hq : evs2.getD (v0 + 2) default = evs.getD (v0 + 2) default := by
                rw [List.getD_eq_getElem?_getD, hevs2, List.getElem?_set,
                  if_neg (by omega), hevs1, List.getElem?_set, if_neg (by omega),
                  ← List.getD_eq_getElem?_getD]
              rw [hp, hevs3, List.getElem?_set, if_pos rfl, if_pos (by omega), hq]
              rw [show v0 + 3 * 0 + 2 = v0 + 2 by omega, hgetd (v0 + 2) hv2, hcfd]
              rfl
        | s + 1, hts =>
            have hs : s < rest.length := by
              have h' := hts
              simp only [List.length_cons] at h'
              omega
            have hidx : v0 + 3 * (s + 1) + c = v0 + 3 + 3 * s + c := by omega
            have := hper s hs c hc
            rw [hidx, this, hset_high (v0 + 3 + 3 * s + c) (by omega)]
            rw [show f0 + 1 + s = f0 + (s + 1) by omega]

theorem setPreservesColor {evs : List ExportVertex} {v : ℕ} {ev newEv : ExportVertex}
    (hget : evs[v]? = some ev) (hcol : newEv.color = ev.color) :
    ∀ i : ℕ, ((evs.set v newEv)[i]?).map ExportVertex.color =
      (evs[i]?).map ExportVertex.color := by
  intro i
  rw [List.getElem?_set]
  by_cases h : v = i
  · subst h
    rw [if_pos rfl, if_pos (List.getElem?_eq_some.mp hget).1, hget]
    simp [hcol]
  · rw [if_neg h]

/-- One step of the UV loop succeeds on in-range input and never touches any
vertex's color. -/
theorem uvSetOne_spec (uv0 uv1 : Option UVLayer) (loopIndex vertexIndex : ℕ)
    (evs : List ExportVertex) (hv : vertexIndex < evs.length)
    (h0 : ∀ layer, uv0 = some layer → loopIndex < layer.data.length)
    (h1 : ∀ layer, uv1 = some layer → loopIndex < layer.data.length) :
    ∃ evs', uvSetOne uv0 uv1 loopIndex vertexIndex evs = some evs' ∧
      evs'.length = evs.length ∧
      ∀ i : ℕ, (evs'[i]?).map ExportVertex.color = (evs[i]?).map ExportVertex.color := by
  set ev0 := evs.getD vertexIndex default with hev0def
  have hev : evs[vertexIndex]? = some ev0 := by
    rw [hev0def, List.getD_eq_getElem?_getD, List.getElem?_eq_getElem hv]
    rfl
  rcases huv0 : uv0 with _ | l0 <;> rcases huv1 : uv1 with _ | l1
  · refine ⟨evs, ?_, rfl, fun i => rfl⟩
    simp only [uvSetOne, huv0, huv1, Option.bind_eq_bind, Option.some_bind]
  · set r1 := l1.data.getD loopIndex ⟨[]⟩ with hr1def
    have hdat : l1.data[loopIndex]? = some r1 := by
      rw [hr1def, List.getD_eq_getElem?_getD, List.getElem?_eq_getElem (h1 l1 huv1)]
      rfl
    refine ⟨evs.set vertexIndex { ev0 with texcoord1 := r1.uv }, ?_, by simp,
      setPreservesColor hev rfl⟩
    simp only [uvSetOne, huv0, huv1, Option.bind_eq_bind, Option.some_bind, hdat, hev]
  · set r0 := l0.data.getD loopIndex ⟨[]⟩ with hr0def
    have hdat : l0.data[loopIndex]? = some r0 := by
      rw [hr0def, List.getD_eq_getElem?_getD, List.getElem?_eq_getElem (h0 l0 huv0)]
      rfl
    refine ⟨evs.set vertexIndex { ev0 with texcoord0 := r0.uv }, ?_, by simp,
      setPreservesColor hev rfl⟩
    simp only [uvSetOne, huv0, huv1, Option.bind_eq_bind, Option.some_bind, hdat, hev]
  · set r0 := l0.data.getD loopIndex ⟨[]⟩ with hr0def
    set r1 := l1.data.getD loopIndex ⟨[]⟩ with hr1def
    have hdat0 : l0.data[loopIndex]? = some r0 := by
      rw [hr0def, List.getD_eq_getElem?_getD, List.getElem?_eq_getElem (h0 l0 huv0)]
      rfl
    have hdat1 : l1.data[loopIndex]? = some r1 := by
      rw [hr1def, List.getD_eq_getElem?_getD, List.getElem?_eq_getElem (h1 l1 huv1)]
      rfl
    set mid := { ev0 with texcoord0 := r0.uv } with hmid
    set evs1 := evs.set vertexIndex mid with hevs1
    have hmidget : evs1[vertexIndex]? = some mid := by
      rw [hevs1, List.getElem?_set, if_pos rfl, if_pos hv]
    refine ⟨evs1.set vertexIndex { mid with texcoord1 := r1.uv }, ?_,
      by simp [hevs1], ?_⟩
    · simp only [uvSetOne, huv0, huv1, Option.bind_eq_bind, Option.some_bind,
        hdat0, hdat1, hev, hmidget, ← hevs1]
    · intro i
      rw [@setPreservesColor evs1 vertexIndex mid
        { mid with texcoord1 := r1.uv } hmidget rfl i, hevs1]
      exact @setPreservesColor evs vertexIndex ev0 mid hev rfl i

/-- The inner `for loop_index in tri.loops` walk: succeeds, advances the
cursor by the number of loops, preserves all colors. -/
theorem uvLoopWalk_spec (uv0 uv1 : Option UVLayer) :
    ∀ (loops : List ℕ) (vertexIndex : ℕ) (evs : List ExportVertex),
    vertexIndex + loops.length ≤ evs.length →
    (∀ li ∈ loops, (∀ layer, uv0 = some layer → li < layer.data.length) ∧
      (∀ layer, uv1 = some layer → li < layer.data.length)) →
    ∃ r, uvLoopWalk uv0 uv1 loops vertexIndex evs = some r ∧
      r.1 = vertexIndex + loops.length ∧ r.2.length = evs.length ∧
      ∀ i : ℕ, (r.2[i]?).map ExportVertex.color = (evs[i]?).map ExportVertex.color := by
  intro loops
  induction loops with
  | nil =>
      intro vertexIndex evs _ _
      exact ⟨(vertexIndex, evs), by rw [uvLoopWalk], by simp, rfl, fun i => rfl⟩
  | cons li rest ih =>
      intro vertexIndex evs hlen hin
      obtain ⟨h0, h1⟩ := hin li (by simp)
      obtain ⟨evs1, hrun1, hlen1, hcol1⟩ :=
        uvSetOne_spec uv0 uv1 li vertexIndex evs (by simp at hlen; omega) h0 h1
      obtain ⟨r, hrun, hr1, hr2, hcol⟩ :=
        ih (vertexIndex + 1) evs1 (by simp at hlen ⊢; omega)
          (fun li' hli' => hin li' (by simp [hli']))
      refine ⟨r, ?_, by simp [hr1]; omega, by rw [hr2, hlen1], ?_⟩
      · rw [uvLoopWalk]
        simp only [hrun1, Option.bind_eq_bind, Option.some_bind]
        exact hrun
      · intro i
        rw [hcol i, hcol1 i]

/-- The UV loop of `deindex_mesh`: succeeds on a triangulated mesh with
in-range loop indices and preserves every vertex's color. -/
theorem uvPass_spec (uv0 uv1 : Option UVLayer) :
    ∀ (faces : List LoopTri) (vertexIndex : ℕ) (evs : List ExportVertex),
    (∀ tri ∈ faces, tri.loops.length = 3) →
    vertexIndex + 3 * faces.length ≤ evs.length →
    (∀ tri ∈ faces, ∀ li ∈ tri.loops,
      (∀ layer, uv0 = some layer → li < layer.data.length) ∧
      (∀ layer, uv1 = some layer → li < layer.data.length)) →
    ∃ evs', uvPass uv0 uv1 faces vertexIndex evs = some evs' ∧
      evs'.length = evs.length ∧
      ∀ i : ℕ, (evs'[i]?).map ExportVertex.color = (evs[i]?).map ExportVertex.color := by
  intro faces
  induction faces with
  | nil =>
      intro vertexIndex evs _ _ _
      exact ⟨evs, by rw [uvPass], rfl, fun i => rfl⟩
  | cons tri rest ih =>
      intro vertexIndex evs h3 hlen hin
      obtain ⟨r, hrun1, hr1, hr2, hcol1⟩ :=
        uvLoopWalk_spec uv0 uv1 tri.loops vertexIndex evs
          (by rw [h3 tri (by simp)]; simp at hlen; omega)
          (fun li hli => hin tri (by simp) li hli)
      obtain ⟨evs', hrun, hlen', hcol⟩ :=
        ih r.1 r.2
          (fun tri' htri' => h3 tri' (by simp [htri']))
          (by rw [hr1, hr2, h3 tri (by simp)]; simp at hlen; omega)
          (fun tri' htri' => hin tri' (by simp [htri']))
      refine ⟨evs', ?_, by rw [hlen', hr2], ?_⟩
      · rw [uvPass]
        simp only [hrun1, Option.bind_eq_bind, Option.some_bind]
        exact hrun
      · intro i
        rw [hcol i, hcol1 i]

/-- C9: with a vertex-color layer present and color export enabled, on a
triangulated in-range mesh `deindex_mesh` gives corner 0 of triangle `t` only
its red component from color record `t` of the first layer, corner 1 only its
green component, corner 2 only its blue component, the other two components
of each corner keeping the default 1. -/
theorem C9_color_deindex (mesh : MeshData) (layer0 : ColorLayer)
    (hlayer : mesh.vertex_colors[0]? = some layer0)
    (htri : ∀ tri ∈ mesh.loop_triangles,
      tri.vertices.length = 3 ∧ tri.loops.length = 3 ∧
      (∀ k ∈ tri.vertices, k < mesh.vertices.length) ∧
      (∀ li ∈ tri.loops,
        (∀ layer, mesh.uv_layers[0]? = some layer → li < layer.data.length) ∧
        (∀ layer, mesh.uv_layers[1]? = some layer → li < layer.data.length)))
    (hdata : ∀ t, t < mesh.loop_triangles.length →
      ∃ cf, layer0.data[t]? = some cf ∧ 3 ≤ cf.color.length) :
    ∃ evs mats, deindexMesh mesh true = some (evs, mats) ∧
      evs.length = 3 * mesh.loop_triangles.length ∧
      (∀ t, t < mesh.loop_triangles.length →
        (evs[3 * t]?).map ExportVertex.color =
          some [(layer0.data.getD t ⟨[]⟩).color.getD 0 0, 1, 1] ∧
        (evs[3 * t + 1]?).map ExportVertex.color =
          some [1, (layer0.data.getD t ⟨[]⟩).color.getD 1 0, 1] ∧
        (evs[3 * t + 2]?).map ExportVertex.color =
          some [1, 1, (layer0.data.getD t ⟨[]⟩).color.getD 2 0]) := by
  obtain ⟨newEvs, newMats, hbase, hblen, hbcol⟩ :=
    deindexBase_spec mesh.vertices mesh.loop_triangles 0 [] []
      (fun tri htri' => ⟨(htri tri htri').1, (htri tri htri').2.2.1⟩)
  rw [List.nil_append, List.nil_append] at hbase
  obtain ⟨evsC, hcp, hclen, hclow, hcper⟩ :=
    colorPass_spec layer0.data mesh.loop_triangles 0 0 newEvs
      (fun tri htri' => (htri tri htri').1)
      (fun t ht => by
        obtain ⟨cf, hcf, hcl⟩ := hdata t ht
        exact ⟨cf, by rw [Nat.zero_add]; exact hcf, hcl⟩)
      (by omega)
  obtain ⟨evsU, hup, hulen, hucol⟩ :=
    uvPass_spec (mesh.uv_layers[0]?) (mesh.uv_layers[1]?) mesh.loop_triangles 0 evsC
      (fun tri htri' => (htri tri htri').2.1)
      (by rw [hclen]; omega)
      (fun tri htri' li hli => (htri tri htri').2.2.2 li hli)
  have hmapcol : ∀ (l : List ExportVertex) (i : ℕ),
      ((l.map fun ev => { ev with hash := vertexHashQ ev })[i]?).map ExportVertex.color =
        (l[i]?).map ExportVertex.color := by
    intro l i
    rw [List.getElem?_map]
    cases l[i]? <;> rfl
  have h0len : 0 < mesh.vertex_colors.length := (List.getElem?_eq_some.mp hlayer).1
  have hcond : (mesh.vertex_colors.length > 0 && true) = true := by simp [h0len]
  have hstep : ∀ c, c < 3 → ∀ t, t < mesh.loop_triangles.length →
      (evsU[3 * t + c]?).map ExportVertex.color =
        some (([1, 1, 1] : List ℚ).set c ((layer0.data.getD t ⟨[]⟩).color.getD c 0)) := by
    intro c hc t ht
    have hidx : 3 * t + c < newEvs.length := by omega
    have horig : newEvs[3 * t + c]? = some (newEvs.getD (3 * t + c) default) := by
      rw [List.getD_eq_getElem?_getD, List.getElem?_eq_getElem hidx]
      rfl
    have hmem : newEvs.getD (3 * t + c) default ∈ newEvs := by
      rw [List.getD_eq_getElem?_getD, List.getElem?_eq_getElem hidx]
      exact List.getElem_mem hidx
    have hcol := hbcol _ hmem
    have hcc := hcper t ht c hc
    rw [show (0 : ℕ) + 3 * t + c = 3 * t + c by omega] at hcc
    rw [List.getD_eq_getElem?_getD] at hcol
    rw [hucol (3 * t + c), hcc, horig]
    simp [Option.map_some', Nat.zero_add, hcol]
  refine ⟨evsU.map (fun ev => { ev with hash := vertexHashQ ev }), newMats, ?_, ?_, ?_⟩
  · simp only [deindexMesh, hbase, Option.bind_eq_bind, Option.some_bind, hcond,
      eq_self_iff_true, if_true, hlayer, hcp, hup]
  · simp only [List.length_map]
    rw [hulen, hclen, hblen]
  · intro t ht
    refine ⟨?_, ?_, ?_⟩
    · have := hstep 0 (by omega) t ht
      rw [hmapcol evsU (3 * t)]
      simpa using this
    · have := hstep 1 (by omega) t ht
      rw [hmapcol evsU (3 * t + 1)]
      simpa using this
    · have := hstep 2 (by omega) t ht
      rw [hmapcol evsU (3 * t + 2)]
      simpa using this

/-- A color record (RGBA) for the witness mesh. -/
def c9cf : ColorRec := ⟨[2, 3, 4, 1]⟩

/-- The witness mesh's single color layer. -/
def c9layer : ColorLayer := ⟨[c9cf]⟩

/-- The witness mesh's single triangle. -/
def c9tri : LoopTri :=
  { vertices := [0, 1, 2], loops := [0, 1, 2], use_smooth := false
    normal := [0, 0, 1], material_index := 0 }

/-- A mesh vertex of the witness mesh. -/
def c9mv : MeshVertex := ⟨[0, 0, 0], [0, 0, 1]⟩

/-- A one-triangle mesh with one color layer and no UV layers. -/
def c9mesh : MeshData :=
  { vertices := [c9mv, c9mv, c9mv], loop_triangles := [c9tri]
    vertex_colors := [c9layer], uv_layers := [] }

theorem C9_color_deindex_witness :
    (c9mesh.vertex_colors[0]? = some c9layer) ∧
    (∀ tri ∈ c9mesh.loop_triangles,
      tri.vertices.length = 3 ∧ tri.loops.length = 3 ∧
      (∀ k ∈ tri.vertices, k < c9mesh.vertices.length) ∧
      (∀ li ∈ tri.loops,
        (∀ layer, c9mesh.uv_layers[0]? = some layer → li < layer.data.length) ∧
        (∀ layer, c9mesh.uv_layers[1]? = some layer → li < layer.data.length))) ∧
    (∀ t, t < c9mesh.loop_triangles.length →
      ∃ cf, c9layer.data[t]? = some cf ∧ 3 ≤ cf.color.length) ∧
    (∃ evs mats, deindexMesh c9mesh true = some (evs, mats) ∧
      evs.length = 3 * c9mesh.loop_triangles.length ∧
      (∀ t, t < c9mesh.loop_triangles.length →
        (evs[3 * t]?).map ExportVertex.color =
          some [(c9layer.data.getD t ⟨[]⟩).color.getD 0 0, 1, 1] ∧
        (evs[3 * t + 1]?).map ExportVertex.color =
          some [1, (c9layer.data.getD t ⟨[]⟩).color.getD 1 0, 1] ∧
        (evs[3 * t + 2]?).map ExportVertex.color =
          some [1, 1, (c9layer.data.getD t ⟨[]⟩).color.getD 2 0])) := by
  have h2 : ∀ tri ∈ c9mesh.loop_triangles,
      tri.vertices.length = 3 ∧ tri.loops.length = 3 ∧
      (∀ k ∈ tri.vertices, k < c9mesh.vertices.length) ∧
      (∀ li ∈ tri.loops,
        (∀ layer, c9mesh.uv_layers[0]? = some layer → li < layer.data.length) ∧
        (∀ layer, c9mesh.uv_layers[1]? = some layer → li < layer.data.length)) := by
    intro tri htri
    simp only [c9mesh, List.mem_singleton] at htri
    subst htri
    refine ⟨rfl, rfl, by decide, ?_⟩
    intro li _
    exact ⟨fun layer h => by simp [c9mesh] at h, fun layer h => by simp [c9mesh] at h⟩
  have h3 : ∀ t, t < c9mesh.loop_triangles.length →
      ∃ cf, c9layer.data[t]? = some cf ∧ 3 ≤ cf.color.length := by
    intro t ht
    simp only [c9mesh, List.length_singleton] at ht
    interval_cases t
    exact ⟨c9cf, rfl, by norm_num [c9cf]⟩
  exact ⟨rfl, h2, h3, C9_color_deindex c9mesh c9layer rfl h2 h3⟩

end OpenGex
